import Mathlib

/-!
Verification of the link-syntax rewriting engine, occurrence disambiguator,
block-scoped locator and reference cache of the albus-imagine plugin.

Strings are modelled as `List Char` (`Str`); the JavaScript string operations
used by the source (`split`, `trim`, `startsWith`, `endsWith`, `includes`,
`Array.prototype.find/some/join`, regex tests such as `/^\d+$/`) are embedded
as executable Lean functions with the same semantics on the inputs the source
feeds them.
-/

/-- Strings of the embedded program: JavaScript strings as lists of characters. -/
abbrev Str := List Char

/-- Coerce a Lean string literal into the embedded string type. -/
def strL (s : String) : Str := s.data

/-- JS `a.split(sep)` for a single-character separator: always returns at least
one (possibly empty) segment. -/
def splitOnC (sep : Char) : Str → List Str
  | [] => [[]]
  | c :: rest =>
    if c = sep then [] :: splitOnC sep rest
    else
      match splitOnC sep rest with
      | [] => [[c]]
      | h :: t => (c :: h) :: t

/-- JS `Array.prototype.join(sep)` for a single-character separator. -/
def joinSep (sep : Char) : List Str → Str
  | [] => []
  | [x] => x
  | x :: xs => x ++ sep :: joinSep sep xs

/-- JS `String.prototype.trim()`: strip leading and trailing whitespace. -/
def trimS (s : Str) : Str :=
  ((s.dropWhile Char.isWhitespace).reverse.dropWhile Char.isWhitespace).reverse

/-- JS `/^\d+$/.test(s)`: the whole string is a non-empty run of digits. -/
def isDigitRun (s : Str) : Bool := !s.isEmpty && s.all Char.isDigit

/-- JS `s.startsWith(p)`. -/
def startsW : Str → Str → Bool
  | [], _ => true
  | _ :: _, [] => false
  | p :: ps, c :: cs => p = c && startsW ps cs

/-- JS `s.endsWith(p)`. -/
def endsW (p s : Str) : Bool := startsW p.reverse s.reverse

/-- JS `needle ⊆ hay` as in `String.prototype.includes`. -/
def isSubstr (n : Str) : Str → Bool
  | [] => startsW n []
  | c :: t => startsW n (c :: t) || isSubstr n t

/-- The `![[` opener of a wiki embed token. -/
def bOpen : Str := strL "![["

/-- The `]]` closer of a wiki embed token. -/
def bClose : Str := strL "]]"

/-- Build the token string `![[inner]]`. -/
def tokStr (inner : Str) : Str := bOpen ++ inner ++ bClose

/-- JS `link.startsWith("![[") && link.endsWith("]]")`: the guard shared by all
three updaters in `ImageContextMenu.ts`. -/
def isTokenStr (link : Str) : Bool := startsW bOpen link && endsW bClose link

/-- JS `link.slice(3, -2)`: the interior of a token string. -/
def innerOf (link : Str) : Str :=
  let r := link.drop 3
  r.take (r.length - 2)

/-- The literal `dark`. -/
def darkS : Str := strL "dark"

/-- Membership of a trimmed segment in `["center", "left", "right"]`. -/
def isAlignB (s : Str) : Bool :=
  s == strL "center" || s == strL "left" || s == strL "right"

/-- The three alignment keywords of the embed grammar. -/
inductive Align where
  | center
  | left
  | right
deriving DecidableEq, Repr

/-- The textual form of an alignment keyword. -/
def alignS : Align → Str
  | .center => strL "center"
  | .left => strL "left"
  | .right => strL "right"

/-- Map one of the three keyword strings back to `Align` (default `center`). -/
def strToAlign (s : Str) : Align :=
  if s == strL "left" then .left else if s == strL "right" then .right else .center

/-- `updateLinkAlignment` from `ImageContextMenu.ts` (lines 255-294): rewrite the
alignment parameter of an embed token, preserving every other parameter. -/
def updateLinkAlignment (link : Str) (alignment : Str) : Str :=
  if isTokenStr link then
    let parts := splitOnC '|' (innerOf link)
    let imagePath := parts.headI
    if '#' ∈ imagePath then
      let hashParts := splitOnC '#' imagePath
      let baseImage := hashParts.headI
      let hasDark := hashParts.any (· == darkS)
      let newImagePath := baseImage ++ '#' :: alignment ++ (if hasDark then '#' :: darkS else [])
      let otherParts := parts.tail
      if otherParts.isEmpty then tokStr newImagePath
      else tokStr (newImagePath ++ '|' :: joinSep '|' otherParts)
    else
      let baseImage := parts.headI
      let hasDark := parts.any (fun p => trimS p == darkS)
      let size := ((parts.find? (fun p => isDigitRun (trimS p))).getD [])
      if hasDark then
        if size.isEmpty then tokStr (baseImage ++ '|' :: darkS ++ '|' :: alignment)
        else tokStr (baseImage ++ '|' :: darkS ++ '|' :: alignment ++ '|' :: size)
      else
        if size.isEmpty then tokStr (baseImage ++ '|' :: alignment)
        else tokStr (baseImage ++ '|' :: alignment ++ '|' :: size)
  else link

/-- `updateLinkDarkMode` from `ImageContextMenu.ts` (lines 302-339): rewrite the
dark flag of an embed token, preserving every other parameter. -/
def updateLinkDarkMode (link : Str) (enableDark : Bool) : Str :=
  if isTokenStr link then
    let parts := splitOnC '|' (innerOf link)
    let imagePath := parts.headI
    if '#' ∈ imagePath then
      let hashParts := splitOnC '#' imagePath
      let baseImage := hashParts.headI
      let position := (hashParts.find? isAlignB).getD (strL "center")
      let newImagePath := baseImage ++ '#' :: position ++ (if enableDark then '#' :: darkS else [])
      let otherParts := parts.tail
      if otherParts.isEmpty then tokStr newImagePath
      else tokStr (newImagePath ++ '|' :: joinSep '|' otherParts)
    else
      let baseImage := parts.headI
      let position := (parts.find? (fun p => isAlignB (trimS p))).getD (strL "center")
      let size := ((parts.find? (fun p => isDigitRun (trimS p))).getD [])
      if enableDark then
        if size.isEmpty then tokStr (baseImage ++ '|' :: darkS ++ '|' :: position)
        else tokStr (baseImage ++ '|' :: darkS ++ '|' :: position ++ '|' :: size)
      else
        if size.isEmpty then tokStr (baseImage ++ '|' :: position)
        else tokStr (baseImage ++ '|' :: position ++ '|' :: size)
  else link

/-- `extractCaptionFromLink` from `ImageContextMenu.ts` (lines 959-1000): read
the caption of an embed token (returns the empty string when there is none). -/
def extractCaptionFromLink (link : Str) : Str :=
  if isTokenStr link then
    let parts := splitOnC '|' (innerOf link)
    if parts.length < 2 then []
    else
      let imagePath := parts.headI
      if '#' ∈ imagePath then
        ((parts.tail.find? (fun p => !isDigitRun (trimS p))).map trimS).getD []
      else
        ((parts.tail.find? (fun p =>
          !(trimS p == darkS) && !isAlignB (trimS p) && !isDigitRun (trimS p))).map trimS).getD []
  else []

/-- `updateLinkCaptionOnly` from `ImageContextMenu.ts` (lines 1008-1063):
rewrite (or clear, when `caption` is empty) the caption of an embed token,
switching between the hash and pipe encodings as caption presence dictates. -/
def updateLinkCaptionOnly (link : Str) (caption : Str) : Str :=
  if isTokenStr link then
    let parts := splitOnC '|' (innerOf link)
    let imagePath := parts.headI
    if '#' ∈ imagePath then
      let hashParts := splitOnC '#' imagePath
      let baseImage := hashParts.headI
      let position := (hashParts.find? isAlignB).getD (strL "center")
      let hasDark := hashParts.any (· == darkS)
      let size := ((parts.find? (fun p => isDigitRun (trimS p))).getD [])
      if caption.isEmpty then
        if hasDark then
          if size.isEmpty then tokStr (baseImage ++ '|' :: darkS ++ '|' :: position)
          else tokStr (baseImage ++ '|' :: darkS ++ '|' :: position ++ '|' :: size)
        else
          if size.isEmpty then tokStr (baseImage ++ '|' :: position)
          else tokStr (baseImage ++ '|' :: position ++ '|' :: size)
      else
        let newImagePath := baseImage ++ '#' :: position ++ (if hasDark then '#' :: darkS else [])
        if size.isEmpty then tokStr (newImagePath ++ '|' :: caption)
        else tokStr (newImagePath ++ '|' :: caption ++ '|' :: size)
    else
      let baseImage := parts.headI
      let hasDark := parts.any (fun p => trimS p == darkS)
      let position := (parts.find? (fun p => isAlignB (trimS p))).getD (strL "center")
      let size := ((parts.find? (fun p => isDigitRun (trimS p))).getD [])
      if caption.isEmpty then
        if hasDark then
          if size.isEmpty then tokStr (baseImage ++ '|' :: darkS ++ '|' :: position)
          else tokStr (baseImage ++ '|' :: darkS ++ '|' :: position ++ '|' :: size)
        else
          if size.isEmpty then tokStr (baseImage ++ '|' :: position)
          else tokStr (baseImage ++ '|' :: position ++ '|' :: size)
      else
        let newImagePath := baseImage ++ '#' :: position ++ (if hasDark then '#' :: darkS else [])
        if size.isEmpty then tokStr (newImagePath ++ '|' :: caption)
        else tokStr (newImagePath ++ '|' :: caption ++ '|' :: size)
  else link

/-- The structured content of an embed token: spec section 3, `EmbedToken`. -/
structure EmbedToken where
  base : Str
  align : Align
  dark : Bool
  caption : Option Str
  size : Option Str
deriving DecidableEq, Repr

/-- The decoder assembled from the field-extraction code the updaters share
(`updateLinkCaptionOnly` lines 1013-1048 for path, alignment, dark and size;
`extractCaptionFromLink` for the caption, empty meaning absent). -/
def decode (link : Str) : Option EmbedToken :=
  if isTokenStr link then
    let parts := splitOnC '|' (innerOf link)
    let imagePath := parts.headI
    let cap := extractCaptionFromLink link
    if '#' ∈ imagePath then
      let hashParts := splitOnC '#' imagePath
      some { base := hashParts.headI
             align := strToAlign ((hashParts.find? isAlignB).getD (strL "center"))
             dark := hashParts.any (· == darkS)
             caption := if cap.isEmpty then none else some cap
             size := parts.find? (fun p => isDigitRun (trimS p)) }
    else
      some { base := parts.headI
             align := strToAlign ((parts.find? (fun p => isAlignB (trimS p))).getD (strL "center"))
             dark := parts.any (fun p => trimS p == darkS)
             caption := if cap.isEmpty then none else some cap
             size := parts.find? (fun p => isDigitRun (trimS p)) }
  else none

/-- The `![[base#align[#dark]` path segment of the hash encoding. -/
def hashSeg (b : Str) (a : Align) (d : Bool) : Str :=
  joinSep '#' ([b, alignS a] ++ if d then [darkS] else [])

/-- The pipe segments an embed token serializes to: hash encoding
`base#align[#dark] | caption [| size]` when a caption is present, pipe encoding
`base [| dark] | align [| size]` otherwise — exactly the output templates of the
three updaters. -/
def segsOf (t : EmbedToken) : List Str :=
  match t.caption with
  | some c => [hashSeg t.base t.align t.dark, c] ++ (match t.size with | some s => [s] | none => [])
  | none => [t.base] ++ (if t.dark then [darkS] else []) ++ [alignS t.align]
      ++ (match t.size with | some s => [s] | none => [])

/-- Canonical serialization of an embed token (the updaters' output language). -/
def encode (t : EmbedToken) : Str := tokStr (joinSep '|' (segsOf t))

/-- Base names that the grammar can carry: no separator characters, and not
mistakable for the `dark` keyword, an alignment keyword or a size. -/
def baseAtom (b : Str) : Prop :=
  '|' ∉ b ∧ '#' ∉ b ∧ trimS b ≠ darkS ∧ isAlignB (trimS b) = false ∧
    isDigitRun (trimS b) = false

/-- Captions that the hash encoding can carry: non-empty, already trimmed, free
of the pipe separator and not a run of digits (which would parse as a size). -/
def captionAtom (c : Str) : Prop :=
  c ≠ [] ∧ trimS c = c ∧ '|' ∉ c ∧ isDigitRun c = false

/-- Sizes are non-empty digit runs. -/
def sizeAtom (s : Str) : Prop := isDigitRun s = true

/-- An optional caption is representable. -/
def capOK : Option Str → Prop
  | some c => captionAtom c
  | none => True

/-- An optional size is representable. -/
def sizeOK : Option Str → Prop
  | some s => sizeAtom s
  | none => True

instance (b : Str) : Decidable (baseAtom b) :=
  inferInstanceAs (Decidable ('|' ∉ b ∧ '#' ∉ b ∧ trimS b ≠ darkS ∧
    isAlignB (trimS b) = false ∧ isDigitRun (trimS b) = false))

instance (c : Str) : Decidable (captionAtom c) :=
  inferInstanceAs (Decidable (c ≠ [] ∧ trimS c = c ∧ '|' ∉ c ∧ isDigitRun c = false))

instance (s : Str) : Decidable (sizeAtom s) :=
  inferInstanceAs (Decidable (isDigitRun s = true))

instance : (o : Option Str) → Decidable (capOK o)
  | some c => inferInstanceAs (Decidable (captionAtom c))
  | none => inferInstanceAs (Decidable True)

instance : (o : Option Str) → Decidable (sizeOK o)
  | some s => inferInstanceAs (Decidable (sizeAtom s))
  | none => inferInstanceAs (Decidable True)

/-- A token whose fields are all representable in the embed grammar. -/
def atomOK (t : EmbedToken) : Prop :=
  baseAtom t.base ∧ capOK t.caption ∧ sizeOK t.size

instance (t : EmbedToken) : Decidable (atomOK t) :=
  inferInstanceAs (Decidable (baseAtom t.base ∧ capOK t.caption ∧ sizeOK t.size))

/-- Concrete token used by the C1 witness. -/
def tokA : EmbedToken :=
  { base := strL "img.png", align := Align.left, dark := true,
    caption := some (strL "My Caption"), size := some (strL "300") }

/-- Concrete token used by the C2 witness. -/
def tokB : EmbedToken :=
  { base := strL "diagram.png", align := Align.center, dark := false,
    caption := some (strL "My Caption"), size := none }

/-- `ResizeHandler.endDrag` (part_001 lines 259-296), the final-width
computation: when `resizeInterval > 1` and the last drag width is not a
multiple of the interval, snap it to `floor(w/interval)*interval`, plus one
extra interval when the drag was moving rightwards (`lastUpdate > 0`).
Widths are non-negative (`clientWidth`, then `max(.., 50)`), so `Nat`. -/
def endDragFinalWidth (updatedWidth : Nat) (lastUpdate : Int) (resizeInterval : Nat) : Nat :=
  if 1 < resizeInterval then
    if updatedWidth % resizeInterval ≠ 0 then
      updatedWidth / resizeInterval * resizeInterval +
        (if 0 < lastUpdate then resizeInterval else 0)
    else updatedWidth
  else updatedWidth

/-- One textual occurrence of an image inside one line
(`ImageMatch` in `ImageContextMenu.ts`). -/
structure ImageMatch where
  lineNumber : Nat
  line : Str
  fullMatch : Str
deriving DecidableEq, Repr

/-- Absolute line distance `Math.abs(match.lineNumber - targetLine)`. -/
def lineDist (m : ImageMatch) (t : Nat) : Nat := ((m.lineNumber : Int) - (t : Int)).natAbs

/-- The closest-match loop of `findSingleImageMatch` (lines 672-682): fold over
all matches keeping the first strictly closer one. -/
def closestFold (t : Nat) (ms : List ImageMatch) (acc : ImageMatch) : ImageMatch :=
  ms.foldl (fun acc m => if lineDist m t < lineDist acc t then m else acc) acc

/-- `findSingleImageMatch` from `ImageContextMenu.ts` (lines 646-697): none on
no match, the unique match unconditionally, else — given a usable rendered
position — an exact line-number hit wins, then the closest match if within 5
lines, and otherwise (or with no position) the first match in document order. -/
def findSingleImageMatch (ms : List ImageMatch) (hint : Option Nat) : Option ImageMatch :=
  match ms with
  | [] => none
  | [m] => some m
  | m0 :: m1 :: rest =>
    match hint with
    | none => some m0
    | some t =>
      match (m0 :: m1 :: rest).find? (fun m => m.lineNumber == t) with
      | some e => some e
      | none =>
        let cm := closestFold t (m0 :: m1 :: rest) m0
        if lineDist cm t ≤ 5 then some cm else some m0

/-- Reference kind: embed (`![[..]]`/`![](..)`) or plain link. -/
inductive RefKind where
  | link
  | embed
deriving DecidableEq, Repr

/-- One backlink occurrence enriched by the reference check
(`ReferenceInfo` in image-manager.types.ts; the position payload is opaque
to the logic verified here). -/
structure RefInfo where
  file : Str
  type : RefKind
  position : Option Nat
deriving DecidableEq, Repr

/-- `ReferenceCheckResult`: the cached value per path. -/
structure ReferenceCheckResult where
  references : List RefInfo
  referenceCount : Nat
deriving DecidableEq, Repr

/-- The reference cache (`ReferenceCache.ts` wraps a `Map`); observationally a
partial map from path to result. -/
def Cache := Str → Option ReferenceCheckResult

/-- A fresh cache. -/
def cacheEmpty : Cache := fun _ => none

/-- `ReferenceCache.get`. -/
def cacheGet (c : Cache) (k : Str) : Option ReferenceCheckResult := c k

/-- `ReferenceCache.set`. -/
def cacheSet (c : Cache) (k : Str) (v : ReferenceCheckResult) : Cache :=
  fun x => if x = k then some v else c x

/-- `ReferenceCache.has`. -/
def cacheHas (c : Cache) (k : Str) : Bool := (c k).isSome

/-- `ReferenceCache.delete`. -/
def cacheDeleteEntry (c : Cache) (k : Str) : Cache :=
  fun x => if x = k then none else c x

/-- `ReferenceCache.updateKey` (lines 55-61): move the entry for `oldKey` to
`newKey` without recomputation; no-op when `oldKey` is absent. -/
def cacheUpdateKey (c : Cache) (oldKey newKey : Str) : Cache :=
  match c oldKey with
  | some v => cacheSet (cacheDeleteEntry c oldKey) newKey v
  | none => c

/-- `ImageItem` (image-manager.types.ts), restricted to the fields the
reference check reads or writes; files are identified by their paths. -/
structure ImageItem where
  name : Str
  path : Str
  originalFile : Str
  displayFile : Str
  isCustomType : Bool
  references : Option (List RefInfo)
  referenceCount : Option Nat
deriving DecidableEq, Repr

/-- One occurrence as delivered by the host backlink index. -/
structure BacklinkOcc where
  link : Str
  position : Option Nat
deriving DecidableEq, Repr

/-- The file whose backlinks are queried for an item (part_003 lines 96-101):
the display/cover file for custom types, the original file otherwise. -/
def resolutionTarget (it : ImageItem) : Str :=
  if it.isCustomType = true ∧ it.displayFile ≠ it.originalFile then it.displayFile
  else it.originalFile

/-- `findReferencesUsingBacklinks` (part_003 lines 91-137) against a total
backlink collaborator `bl` (target file to list of (source path, occurrences))
and a vault-membership test `resolve`: classify each occurrence as embed when
its link text starts with `!`, else link. -/
def findReferencesUsingBacklinks (bl : Str → List (Str × List BacklinkOcc))
    (resolve : Str → Bool) (it : ImageItem) : List RefInfo :=
  (bl (resolutionTarget it)).flatMap (fun pr =>
    if resolve pr.1 then
      pr.2.map (fun occ =>
        { file := pr.1,
          type := if startsW (strL "!") occ.link then RefKind.embed else RefKind.link,
          position := occ.position })
    else [])

/-- Fill in `references`/`referenceCount` on an item (the spread
`{...imageItem, ...result}` in part_003 lines 45-49 and 64-67). -/
def enrichItem (it : ImageItem) (v : ReferenceCheckResult) : ImageItem :=
  { it with references := some v.references, referenceCount := some v.referenceCount }

/-- One iteration of the per-item loop of `checkReferences` (part_003 lines
37-68): cache hit enriches from the cache, cache miss queries the collaborator,
caches the complete result immediately and enriches. The accumulator carries
(outputs so far, cache, paths for which the collaborator was queried); the
batching and the progress callback only affect scheduling, not this state. -/
def checkRefsStep (bl : Str → List (Str × List BacklinkOcc)) (resolve : Str → Bool)
    (acc : List ImageItem × Cache × List Str) (it : ImageItem) :
    List ImageItem × Cache × List Str :=
  let (outs, cache, queried) := acc
  if cacheHas cache it.path then
    (outs ++ [enrichItem it ((cacheGet cache it.path).getD ⟨[], 0⟩)], cache, queried)
  else
    let refs := findReferencesUsingBacklinks bl resolve it
    (outs ++ [enrichItem it ⟨refs, refs.length⟩],
      cacheSet cache it.path ⟨refs, refs.length⟩, queried ++ [it.path])

/-- `ReferenceCheckService.checkReferences` (part_003 lines 21-86) with a total
collaborator: process items in order, threading the cache. -/
def checkReferences (bl : Str → List (Str × List BacklinkOcc)) (resolve : Str → Bool)
    (cache : Cache) (items : List ImageItem) : List ImageItem × Cache × List Str :=
  items.foldl (checkRefsStep bl resolve) ([], cache, [])

/-- `findReferencesUsingBacklinks` against a collaborator that may throw
(modelled as `Except` with an opaque error payload). -/
def findReferencesE (bl : Str → Except Str (List (Str × List BacklinkOcc)))
    (resolve : Str → Bool) (it : ImageItem) : Except Str (List RefInfo) :=
  (bl (resolutionTarget it)).map (fun lst =>
    lst.flatMap (fun pr =>
      if resolve pr.1 then
        pr.2.map (fun occ =>
          { file := pr.1,
            type := if startsW (strL "!") occ.link then RefKind.embed else RefKind.link,
            position := occ.position })
      else []))

/-- `checkReferences` with a throwing collaborator: the per-item loop stops at
the first collaborator failure; the error propagates unmodified (part_003 lines
82-85 catch and rethrow) paired with the cache state at that moment, since the
cache field outlives the call. -/
def checkReferencesE (bl : Str → Except Str (List (Str × List BacklinkOcc)))
    (resolve : Str → Bool) : Cache → List Str → List ImageItem → List ImageItem →
    Except (Str × Cache) (List ImageItem × Cache × List Str)
  | cache, queried, outs, [] => .ok (outs, cache, queried)
  | cache, queried, outs, it :: rest =>
    if cacheHas cache it.path then
      checkReferencesE bl resolve cache queried
        (outs ++ [enrichItem it ((cacheGet cache it.path).getD ⟨[], 0⟩)]) rest
    else
      match findReferencesE bl resolve it with
      | .error e => .error (e, cache)
      | .ok refs =>
        checkReferencesE bl resolve (cacheSet cache it.path ⟨refs, refs.length⟩)
          (queried ++ [it.path]) (outs ++ [enrichItem it ⟨refs, refs.length⟩]) rest

/-- Error payload of a failed reference check. -/
def errPayload : Except (Str × Cache) (List ImageItem × Cache × List Str) → Option Str
  | .error (e, _) => some e
  | .ok _ => none

/-- Cache observation at one path after a failed reference check. -/
def errCacheAt (p : Str) :
    Except (Str × Cache) (List ImageItem × Cache × List Str) →
      Option (Option ReferenceCheckResult)
  | .error (_, c) => some (c p)
  | .ok _ => none

/-- Concrete item for the cache witnesses. -/
def itemA : ImageItem :=
  { name := strL "img.png", path := strL "pics/img.png",
    originalFile := strL "pics/img.png", displayFile := strL "pics/img.png",
    isCustomType := false, references := none, referenceCount := none }

/-- Concrete backlink collaborator for the cache witnesses. -/
def blA : Str → List (Str × List BacklinkOcc) := fun t =>
  if t = strL "pics/img.png" then
    [(strL "note.md", [{ link := strL "![[img.png]]", position := none }])]
  else []

/-- Concrete items for the collaborator-failure scenario. -/
def itemB1 : ImageItem :=
  { name := strL "a.png", path := strL "a.png", originalFile := strL "a.png",
    displayFile := strL "a.png", isCustomType := false, references := none,
    referenceCount := none }

/-- Second concrete item, whose resolution will throw. -/
def itemB2 : ImageItem :=
  { name := strL "b.png", path := strL "b.png", originalFile := strL "b.png",
    displayFile := strL "b.png", isCustomType := false, references := none,
    referenceCount := none }

/-- Throwing collaborator: succeeds on `a.png`, throws on everything else. -/
def blB : Str → Except Str (List (Str × List BacklinkOcc)) := fun t =>
  if t = strL "a.png" then .ok [] else .error (strL "boom")

/-- Vault-membership test accepting everything. -/
def resolveTrue : Str → Bool := fun _ => true

/-- A link rewrite produced by `LinkUpdateService.matchLineWithInternalLink`
(part_002, `LinkMatch`). -/
structure LinkMatch where
  old_link : Str
  new_link : Str
  from_ch : Nat
  to_ch : Nat
deriving DecidableEq, Repr

/-- JS `target_name.replace(/ /g, '%20')`. -/
def encSpaces : Str → Str
  | [] => []
  | ' ' :: r => '%' :: '2' :: '0' :: encSpaces r
  | c :: r => c :: encSpaces r

/-- JS `matched_link.replace(/\\\|/g, '|')`: unescape table pipes. -/
def unescPipes : Str → Str
  | '\\' :: '|' :: r => '|' :: unescPipes r
  | c :: r => c :: unescPipes r
  | [] => []

/-- JS `new_alt_text.replace(/\|/g, '\\|')`: escape pipes for table cells. -/
def escPipes : Str → Str
  | [] => []
  | '|' :: r => '\\' :: '|' :: escPipes r
  | c :: r => c :: escPipes r

/-- JS `/^\s*$/.test(s)`. -/
def isWsOnly (s : Str) : Bool := s.all Char.isWhitespace

/-- JS `/^\d*$/.test(s)`. -/
def isDigitsOrEmpty (s : Str) : Bool := s.all Char.isDigit

/-- Body of the wiki-link regex `\!\[\[[^\[\]]*?\]\]` after `![[`: the shortest
bracket-free run closed by `]]`; returns the body and the rest of the input. -/
def grabBody : Str → Option (Str × Str)
  | [] => none
  | ']' :: ']' :: r => some ([], r)
  | ']' :: _ => none
  | '[' :: _ => none
  | c :: r => (grabBody r).map (fun pr => (c :: pr.1, pr.2))

/-- All wiki-link regex matches on a line with their start indices, scanning
left to right without overlap as `regWikiLink.exec` does; the fuel argument
bounds the recursion and is always ample (`length + 1`). -/
def findWikiAux : Nat → Str → Nat → List (Nat × Str)
  | 0, _, _ => []
  | _ + 1, [], _ => []
  | fuel + 1, '!' :: '[' :: '[' :: rest, idx =>
    match grabBody rest with
    | some (b, r2) => (idx, tokStr b) :: findWikiAux fuel r2 (idx + b.length + 5)
    | none => findWikiAux fuel ('[' :: '[' :: rest) (idx + 1)
  | fuel + 1, _ :: t, idx => findWikiAux fuel t (idx + 1)

/-- Group 1 of `/!\[\[(.*?)(\||\]\])/` applied after the `![[` prefix: the
shortest run up to the first `|` or `]]`. -/
def grp1 : Str → Option Str
  | [] => none
  | '|' :: _ => some []
  | ']' :: ']' :: _ => some []
  | c :: r => (grp1 r).map (c :: ·)

/-- The link-text match of `normal_link.match(/!\[\[(.*?)(\||\]\])/)`; the
input always starts with `![[` here, so the match is anchored there. -/
def wikiLinkText (nl : Str) : Option Str :=
  if startsW bOpen nl then grp1 (nl.drop 3) else none

/-- Rest of the input after its first `|`. -/
def afterFirstPipe : Str → Option Str
  | [] => none
  | '|' :: r => some r
  | _ :: r => afterFirstPipe r

/-- Group 1 of `matched_link.match(/!\[\[.*?(\|(.*?))\]\]/)`: from the first
`|` of the body to the closing `]]` (the body of a wiki match never contains
`]`), or the empty string when the match fails. -/
def wikiAltText (ml : Str) : Str :=
  match afterFirstPipe (innerOf ml) with
  | some r => '|' :: r
  | none => []

/-- The wiki-branch rewrite of `matchLineWithInternalLink` (part_002 lines
282-310): drop digit-only and blank alt segments, then append the new width. -/
def wikiRewrite (matched target_name : Str) (new_width : Nat) (intable : Bool) : Str :=
  let normal_link := if intable then unescPipes matched else matched
  let link_text_opt := wikiLinkText normal_link
  let alt_text := wikiAltText matched
  let alt_text_list := splitOnC '|' alt_text
  let alt_text_wo_size := alt_text_list.foldl
    (fun acc alt => if !isDigitRun alt && !isWsOnly alt then acc ++ '|' :: alt else acc) []
  let new_alt_text :=
    if new_width ≠ 0 then alt_text_wo_size ++ '|' :: Nat.toDigits 10 new_width
    else alt_text_wo_size
  let escaped_alt_text := if intable then escPipes new_alt_text else new_alt_text
  match link_text_opt with
  | some lt => tokStr (lt ++ escaped_alt_text)
  | none => tokStr (target_name ++ escaped_alt_text)

/-- Alt part of the markdown-link regex after `![`: shortest bracket-free run
closed by `]`. -/
def grabAlt : Str → Option (Str × Str)
  | [] => none
  | ']' :: r => some ([], r)
  | '[' :: _ => none
  | c :: r => (grabAlt r).map (fun pr => (c :: pr.1, pr.2))

/-- Characters allowed in the URL part `[^\[\]\x7b\x7d']*` of the
markdown-link regex. -/
def mdAllowed (c : Char) : Bool :=
  !(c = '[' || c = ']' || c = '\x7b' || c = '\x7d' || c = '\'')

/-- Split the text after `](` into the URL part and the rest: the greedy class
run backtracks to its last `)`, which closes the match. -/
def mdUrlSplit (r : Str) : Option (Str × Str) :=
  let run := r.takeWhile mdAllowed
  let tailLen := (run.reverse.takeWhile (fun c => !(c = ')'))).length
  if tailLen = run.length then none
  else
    let consumed := run.length - tailLen
    some (run.take (consumed - 1), r.drop consumed)

/-- Rebuild a markdown image link `![alt](url)`. -/
def mdFull (alt url : Str) : Str :=
  '!' :: '[' :: alt ++ ']' :: '(' :: url ++ [')']

/-- All markdown-link regex matches `(index, full, alt, url)` on a line. -/
def findMdAux : Nat → Str → Nat → List (Nat × Str × Str × Str)
  | 0, _, _ => []
  | _ + 1, [], _ => []
  | fuel + 1, '!' :: '[' :: rest, idx =>
    (match grabAlt rest with
    | some (alt, r1) =>
      match r1 with
      | '(' :: r2 =>
        (match mdUrlSplit r2 with
        | some (url, r3) =>
          (idx, mdFull alt url, alt, url) ::
            findMdAux fuel r3 (idx + alt.length + url.length + 5)
        | none => findMdAux fuel ('[' :: rest) (idx + 1))
      | _ => findMdAux fuel ('[' :: rest) (idx + 1)
    | none => findMdAux fuel ('[' :: rest) (idx + 1))
  | fuel + 1, _ :: t, idx => findMdAux fuel t (idx + 1)

/-- Split off a maximal digit suffix: `a = front ++ digits`. -/
def endDigitsSplit (a : Str) : Option (Str × Str) :=
  let ds := a.reverse.takeWhile Char.isDigit
  if ds.isEmpty then none
  else some ((a.reverse.drop ds.length).reverse, ds.reverse)

/-- JS `alt_text.replace(/\|\d+(\|\d+)?$/g, '')`: strip a trailing
`|digits` or `|digits|digits` (leftmost match wins, so the two-level form is
preferred). -/
def stripSizeSuffixPlain (a : Str) : Str :=
  match endDigitsSplit a with
  | none => a
  | some (front, _) =>
    if endsW (strL "|") front then
      let p := front.take (front.length - 1)
      match endDigitsSplit p with
      | some (front2, _) =>
        if endsW (strL "|") front2 then front2.take (front2.length - 1) else p
      | none => p
    else a

/-- JS `alt_text.replace(/\\\|\d+(\|\d+)?$/g, '')`: the table variant
requiring an escaping backslash before the first pipe. -/
def stripSizeSuffixTbl (a : Str) : Str :=
  match endDigitsSplit a with
  | none => a
  | some (front, _) =>
    if endsW (strL "\\|") front then front.take (front.length - 2)
    else if endsW (strL "|") front then
      let p := front.take (front.length - 1)
      match endDigitsSplit p with
      | some (front2, _) =>
        if endsW (strL "\\|") front2 then front2.take (front2.length - 2) else a
      | none => a
    else a

/-- The markdown-branch rewrite of `matchLineWithInternalLink` (part_002 lines
315-345): a digit-or-empty alt is replaced by the new width alone, otherwise
the stripped alt gets the new width appended (escaped inside tables). -/
def mdRewrite (alt url : Str) (new_width : Nat) (intable : Bool) : Str :=
  let pure_alt := if intable then stripSizeSuffixTbl alt else stripSizeSuffixPlain alt
  if isDigitsOrEmpty alt then mdFull (Nat.toDigits 10 new_width) url
  else if intable then
    mdFull (pure_alt ++ '\\' :: '|' :: Nat.toDigits 10 new_width) url
  else mdFull (pure_alt ++ '|' :: Nat.toDigits 10 new_width) url

/-- `LinkUpdateService.matchLineWithInternalLink` (part_002 lines 264-349):
every wiki-link and markdown-link occurrence of the target on one line,
paired with its replacement at the new width. -/
def matchLineWithInternalLink (line_text target_name : Str) (new_width : Nat)
    (intable : Bool) : List LinkMatch :=
  let target_name_mdlink := encSpaces target_name
  if !isSubstr target_name line_text && !isSubstr target_name_mdlink line_text then []
  else
    let wikiM := (findWikiAux (line_text.length + 1) line_text 0).filterMap (fun pr =>
      if isSubstr target_name pr.2 then
        some { old_link := pr.2,
               new_link := wikiRewrite pr.2 target_name new_width intable,
               from_ch := pr.1, to_ch := pr.1 + pr.2.length }
      else none)
    let mdM := (findMdAux (line_text.length + 1) line_text 0).filterMap (fun q =>
      if isSubstr target_name_mdlink q.2.1 then
        some { old_link := q.2.1,
               new_link := mdRewrite q.2.2.1 q.2.2.2 new_width intable,
               from_ch := q.1, to_ch := q.1 + q.2.1.length }
      else none)
    wikiM ++ mdM

/-- 1-based line access as in the CodeMirror document. -/
def lineAt (doc : List Str) (i : Nat) : Str := doc.getD (i - 1) []

/-- Table block prefix `/^\s*\|/`. -/
def startRegTable (s : Str) : Bool :=
  match s.dropWhile Char.isWhitespace with
  | '|' :: _ => true
  | _ => false

/-- Callout block prefix `/^>/`. -/
def startRegCallout (s : Str) : Bool :=
  match s with
  | '>' :: _ => true
  | _ => false

/-- The downward half of the block scan (part_002 lines 113-121), with an
explicit fuel bounding the loop (always ample where used): from the anchor
line, collect per-line matches while consecutive lines satisfy the block
prefix, stopping at the first non-matching line or the end of the document. -/
def scanDownAux (p : Str → Bool) (f : Str → List LinkMatch) (doc : List Str) :
    Nat → Nat → List (Nat × LinkMatch)
  | 0, _ => []
  | fuel + 1, i =>
    if doc.length < i then []
    else if p (lineAt doc i) then
      ((f (lineAt doc i)).map (fun m => (i, m))) ++ scanDownAux p f doc fuel (i + 1)
    else []

/-- The downward scan from line `i`, fuelled by the number of remaining lines. -/
def scanDown (p : Str → Bool) (f : Str → List LinkMatch) (doc : List Str) (i : Nat) :
    List (Nat × LinkMatch) :=
  scanDownAux p f doc (doc.length + 1 - i) i

/-- The upward half of the block scan (part_002 lines 124-131): from the line
above the anchor, collect per-line matches while consecutive lines satisfy the
block prefix, stopping at the first non-matching line or line 1. -/
def scanUp (p : Str → Bool) (f : Str → List LinkMatch) (doc : List Str) :
    Nat → List (Nat × LinkMatch)
  | 0 => []
  | i + 1 =>
    if p (lineAt doc (i + 1)) then
      ((f (lineAt doc (i + 1))).map (fun m => (i + 1, m))) ++ scanUp p f doc i
    else []

/-- All (line, match) pairs the block scan collects around an anchor line. -/
def blockCollect (p : Str → Bool) (f : Str → List LinkMatch) (doc : List Str)
    (anchor : Nat) : List (Nat × LinkMatch) :=
  scanDown p f doc anchor ++ scanUp p f doc (anchor - 1)

/-- The observable outcome of `LinkUpdateService.updateInternalLink` (part_002
lines 69-161): a single match is applied, no match in a block surfaces a
not-found notice (silently ignored outside blocks), several matches surface
one multi-match notice and apply nothing. -/
inductive UpdateOutcome where
  | applied (lineNumber : Nat) (m : LinkMatch)
  | silentNone
  | notFoundNotice
  | multiMatchNotice
deriving DecidableEq, Repr

/-- Decision logic of `LinkUpdateService.updateInternalLink`. -/
def updateInternalLinkOutcome (doc : List Str) (anchorLine : Nat)
    (inTable inCallout : Bool) (imageName : Str) (newWidth : Nat) : UpdateOutcome :=
  if !inCallout && !inTable then
    match matchLineWithInternalLink (lineAt doc anchorLine) imageName newWidth inTable with
    | [m] => .applied anchorLine m
    | [] => .silentNone
    | _ => .multiMatchNotice
  else
    match blockCollect (if inTable then startRegTable else startRegCallout)
        (fun l => matchLineWithInternalLink l imageName newWidth inTable) doc anchorLine with
    | [pr] => .applied pr.1 pr.2
    | [] => .notFoundNotice
    | _ => .multiMatchNotice

/-- Scenario C document: a three-row table containing `![[img.png|100]]`, a
blank line, then a further embed of the same image outside the table. -/
def docC : List Str :=
  [strL "| ![[img.png|100]] | a |",
   strL "| ![[img.png|100]] | text |",
   strL "| ![[img.png|100]] | b |",
   strL "",
   strL "![[img.png|100]]"]

/-- Ambiguity document: one callout line embedding the same image twice. -/
def docE : List Str := [strL "> ![[img.png]] and ![[img.png]]"]

-- THEOREMS

theorem isDigit_isWhitespace_false {c : Char} (h : c.isDigit = true) :
    c.isWhitespace = false := by
  cases hws : c.isWhitespace with
  | false => rfl
  | true =>
    have hc : ((c = ' ' ∨ c = '\t') ∨ c = '\r') ∨ c = '\n' := by
      simpa [Char.isWhitespace] using hws
    rcases hc with ((h1 | h1) | h1) | h1 <;> subst h1 <;> simp [Char.isDigit] at h

theorem dropWhile_ws_eq_self {s : Str} (h : ∀ c ∈ s, c.isWhitespace = false) :
    s.dropWhile Char.isWhitespace = s := by
  cases s with
  | nil => rfl
  | cons a t => exact List.dropWhile_cons_of_neg (by simp [h a (by simp)])

theorem trimS_eq_self {s : Str} (h : ∀ c ∈ s, c.isWhitespace = false) :
    trimS s = s := by
  unfold trimS
  rw [dropWhile_ws_eq_self h, dropWhile_ws_eq_self (by simpa using h), List.reverse_reverse]

theorem digitRun_all {s : Str} (h : isDigitRun s = true) : ∀ c ∈ s, c.isDigit = true := by
  simp only [isDigitRun, Bool.and_eq_true, List.all_eq_true, decide_eq_true_eq] at h
  exact h.2

theorem digitRun_ne_nil {s : Str} (h : isDigitRun s = true) : s ≠ [] := by
  simp only [isDigitRun, Bool.and_eq_true] at h
  simpa using h.1

theorem digitRun_trimS {s : Str} (h : isDigitRun s = true) : trimS s = s :=
  trimS_eq_self fun c hc => isDigit_isWhitespace_false (digitRun_all h c hc)

theorem digitRun_not_mem {s : Str} {c : Char} (h : isDigitRun s = true)
    (hc : c.isDigit = false) : c ∉ s := by
  intro hm
  exact absurd (digitRun_all h c hm) (by simp [hc])

theorem isAlignB_cases {s : Str} (h : isAlignB s = true) :
    (s = strL "center" ∨ s = strL "left") ∨ s = strL "right" := by
  simpa [isAlignB] using h

theorem digitRun_ne_darkS {s : Str} (h : isDigitRun s = true) : s ≠ darkS := by
  intro e; subst e; exact absurd h (by decide)

theorem digitRun_isAlignB {s : Str} (h : isDigitRun s = true) : isAlignB s = false := by
  cases ha : isAlignB s with
  | false => rfl
  | true =>
    rcases isAlignB_cases ha with (h1 | h1) | h1 <;> subst h1 <;> exact absurd h (by decide)

theorem splitOnC_no_sep {sep : Char} {s : Str} (h : sep ∉ s) : splitOnC sep s = [s] := by
  induction s with
  | nil => rfl
  | cons c t ih =>
    have hcs : ¬ c = sep := fun e => h (by simp [e])
    have ht : sep ∉ t := fun m => h (List.mem_cons_of_mem _ m)
    simp [splitOnC, hcs, ih ht]

theorem splitOnC_append {sep : Char} {a : Str} (b : Str) (h : sep ∉ a) :
    splitOnC sep (a ++ sep :: b) = a :: splitOnC sep b := by
  induction a with
  | nil => simp [splitOnC]
  | cons c t ih =>
    have hcs : ¬ c = sep := fun e => h (by simp [e])
    have ht : sep ∉ t := fun m => h (List.mem_cons_of_mem _ m)
    simp only [List.cons_append, splitOnC, if_neg hcs]
    rw [show t.append (sep :: b) = t ++ sep :: b from rfl, ih ht]

theorem joinSep_cons₂ (sep : Char) (x y : Str) (ys : List Str) :
    joinSep sep (x :: y :: ys) = x ++ sep :: joinSep sep (y :: ys) := rfl

theorem splitOnC_joinSep {sep : Char} {L : List Str} (hne : L ≠ [])
    (h : ∀ s ∈ L, sep ∉ s) : splitOnC sep (joinSep sep L) = L := by
  induction L with
  | nil => cases hne rfl
  | cons x xs ih =>
    cases xs with
    | nil => exact splitOnC_no_sep (h x (by simp))
    | cons y ys =>
      rw [joinSep_cons₂, splitOnC_append _ (h x (by simp)),
        ih (by simp) (fun s hs => h s (by simp [hs]))]

theorem not_mem_joinSep {c sep : Char} {L : List Str} (hcs : c ≠ sep)
    (h : ∀ s ∈ L, c ∉ s) : c ∉ joinSep sep L := by
  induction L with
  | nil => simp [joinSep]
  | cons x xs ih =>
    cases xs with
    | nil => simpa [joinSep] using h x (by simp)
    | cons y ys =>
      rw [joinSep_cons₂]
      intro hm
      rcases List.mem_append.mp hm with hm | hm
      · exact h x (by simp) hm
      · rcases List.mem_cons.mp hm with hm | hm
        · exact hcs hm
        · exact ih (fun s hs => h s (by simp [hs])) hm

theorem startsW_append (p r : Str) : startsW p (p ++ r) = true := by
  induction p with
  | nil => rfl
  | cons c t ih => simp [startsW, ih]

theorem innerOf_tokStr (x : Str) : innerOf (tokStr x) = x := by
  show ((tokStr x).drop 3).take (((tokStr x).drop 3).length - 2) = x
  have h1 : (tokStr x).drop 3 = x ++ bClose := by
    have he : tokStr x = bOpen ++ (x ++ bClose) := by simp [tokStr]
    have hb : bOpen.length = 3 := rfl
    rw [he, ← hb, List.drop_left]
  rw [h1]
  have h2 : (x ++ bClose).length - 2 = x.length := by simp [bClose, strL]
  rw [h2, List.take_left]

theorem isTokenStr_tokStr (x : Str) : isTokenStr (tokStr x) = true := by
  have h1 : startsW bOpen (tokStr x) = true := by
    have he : tokStr x = bOpen ++ (x ++ bClose) := by simp [tokStr]
    rw [he]; exact startsW_append _ _
  have h2 : endsW bClose (tokStr x) = true := by
    unfold endsW
    have he : (tokStr x).reverse = bClose.reverse ++ (x.reverse ++ bOpen.reverse) := by
      simp [tokStr]
    rw [he]; exact startsW_append _ _
  simp [isTokenStr, h1, h2]

theorem joinSep_single (sep : Char) (x : Str) : joinSep sep [x] = x := rfl

theorem joinSep_pair (sep : Char) (x y : Str) : joinSep sep [x, y] = x ++ sep :: y := rfl

theorem joinSep_triple (sep : Char) (x y z : Str) :
    joinSep sep [x, y, z] = x ++ sep :: (y ++ sep :: z) := rfl

theorem trimS_alignS (a : Align) : trimS (alignS a) = alignS a := by cases a <;> decide

theorem isAlignB_alignS (a : Align) : isAlignB (alignS a) = true := by cases a <;> decide

theorem alignS_ne_darkS (a : Align) : alignS a ≠ darkS := by cases a <;> decide

theorem isDigitRun_alignS (a : Align) : isDigitRun (alignS a) = false := by
  cases a <;> decide

theorem strToAlign_alignS (a : Align) : strToAlign (alignS a) = a := by cases a <;> decide

theorem hash_not_mem_alignS (a : Align) : '#' ∉ alignS a := by cases a <;> decide

theorem pipe_not_mem_alignS (a : Align) : '|' ∉ alignS a := by cases a <;> decide

theorem baseAtom_ne_darkS {b : Str} (h : baseAtom b) : b ≠ darkS := by
  intro e
  exact h.2.2.1 (by rw [e]; decide)

theorem baseAtom_isAlignB {b : Str} (h : baseAtom b) : isAlignB b = false := by
  cases hb : isAlignB b with
  | false => rfl
  | true =>
    rcases isAlignB_cases hb with (h1 | h1) | h1 <;> subst h1 <;>
      exact absurd h.2.2.2.1 (by decide)

theorem mem_dropWhile_of_not {p : Char → Bool} {c : Char} (hc : p c = false) :
    ∀ {s : Str}, c ∈ s → c ∈ s.dropWhile p := by
  intro s
  induction s with
  | nil => intro h; exact h
  | cons a t ih =>
    intro h
    by_cases hp : p a = true
    · rw [List.dropWhile_cons_of_pos hp]
      rcases List.mem_cons.mp h with e | m
      · subst e; rw [hp] at hc; cases hc
      · exact ih m
    · rw [List.dropWhile_cons_of_neg (by simpa using hp)]
      exact h

theorem mem_trimS {c : Char} {s : Str} (hc : c.isWhitespace = false) (hm : c ∈ s) :
    c ∈ trimS s := by
  unfold trimS
  rw [List.mem_reverse]
  exact mem_dropWhile_of_not hc (by rw [List.mem_reverse]; exact mem_dropWhile_of_not hc hm)

theorem hash_mem_hashSeg (b : Str) (a : Align) (d : Bool) : '#' ∈ hashSeg b a d := by
  cases d <;> simp [hashSeg, joinSep_pair, joinSep_triple]

theorem pipe_not_mem_hashSeg {b : Str} (a : Align) (d : Bool) (hb : '|' ∉ b) :
    '|' ∉ hashSeg b a d := by
  cases d <;>
    refine not_mem_joinSep (by decide) ?_ <;> intro s hs <;> simp at hs
  · rcases hs with e | e <;> subst e
    exacts [hb, pipe_not_mem_alignS a]
  · rcases hs with e | e | e <;> subst e
    exacts [hb, pipe_not_mem_alignS a, by decide]

theorem digitRun_trimS_hashSeg (b : Str) (a : Align) (d : Bool) :
    isDigitRun (trimS (hashSeg b a d)) = false := by
  cases hr : isDigitRun (trimS (hashSeg b a d)) with
  | false => rfl
  | true =>
    have hm : '#' ∈ trimS (hashSeg b a d) :=
      mem_trimS (by decide) (hash_mem_hashSeg b a d)
    exact absurd hm (digitRun_not_mem hr (by decide))

theorem hashSeg_eq (b : Str) (a : Align) (d : Bool) :
    hashSeg b a d = b ++ '#' :: (alignS a ++ if d then '#' :: darkS else []) := by
  cases d <;> simp [hashSeg, joinSep_pair, joinSep_triple]

theorem split_hashSeg (b : Str) (a : Align) (d : Bool) (hb : '#' ∉ b) :
    splitOnC '#' (hashSeg b a d) = [b, alignS a] ++ (if d then [darkS] else []) := by
  cases d
  · show splitOnC '#' (joinSep '#' [b, alignS a]) = [b, alignS a]
    refine splitOnC_joinSep (by simp) ?_
    intro s hs
    simp at hs
    rcases hs with e | e <;> subst e
    exacts [hb, hash_not_mem_alignS a]
  · show splitOnC '#' (joinSep '#' [b, alignS a, darkS]) = [b, alignS a, darkS]
    refine splitOnC_joinSep (by simp) ?_
    intro s hs
    simp at hs
    rcases hs with e | e | e <;> subst e
    exacts [hb, hash_not_mem_alignS a, by decide]

theorem segsOf_ne_nil (t : EmbedToken) : segsOf t ≠ [] := by
  rcases t with ⟨b, a, d, cap, sz⟩
  cases cap <;> simp [segsOf]

theorem pipe_not_mem_segsOf (t : EmbedToken) (h : atomOK t) :
    ∀ s ∈ segsOf t, '|' ∉ s := by
  obtain ⟨hb, hcap, hsz⟩ := h
  rcases t with ⟨b, a, d, cap, sz⟩
  intro s hs
  cases cap with
  | some c =>
    cases sz with
    | none =>
      simp [segsOf] at hs
      rcases hs with e | e <;> subst e
      exacts [pipe_not_mem_hashSeg a d hb.1, hcap.2.2.1]
    | some z =>
      simp [segsOf] at hs
      rcases hs with e | e | e <;> subst e
      exacts [pipe_not_mem_hashSeg a d hb.1, hcap.2.2.1,
        digitRun_not_mem hsz (by decide)]
  | none =>
    cases d <;> cases sz <;> simp [segsOf] at hs
    · rcases hs with e | e <;> subst e
      exacts [hb.1, pipe_not_mem_alignS a]
    · rcases hs with e | e | e <;> subst e
      exacts [hb.1, pipe_not_mem_alignS a, digitRun_not_mem hsz (by decide)]
    · rcases hs with e | e | e <;> subst e
      exacts [hb.1, by decide, pipe_not_mem_alignS a]
    · rcases hs with e | e | e | e <;> subst e
      exacts [hb.1, by decide, pipe_not_mem_alignS a,
        digitRun_not_mem hsz (by decide)]

theorem parts_encode (t : EmbedToken) (h : atomOK t) :
    splitOnC '|' (innerOf (encode t)) = segsOf t := by
  rw [encode, innerOf_tokStr]
  exact splitOnC_joinSep (segsOf_ne_nil t) (pipe_not_mem_segsOf t h)

/-- Spec scenario A as a sanity check: setting alignment right on
`![[photo.png|dark|left|300]]` yields `![[photo.png|dark|right|300]]`. -/
theorem scenarioA_set_alignment_right :
    updateLinkAlignment (strL "![[photo.png|dark|left|300]]") (strL "right") =
      strL "![[photo.png|dark|right|300]]" := by decide

theorem isEmpty_false_of_ne {s : Str} (h : s ≠ []) : s.isEmpty = false := by
  cases s with
  | nil => cases h rfl
  | cons a t => rfl

theorem joinSep_quad (sep : Char) (x y z w : Str) :
    joinSep sep [x, y, z, w] = x ++ sep :: (y ++ sep :: (z ++ sep :: w)) := rfl

theorem trimS_darkS : trimS darkS = darkS := by decide

theorem isDigitRun_darkS : isDigitRun darkS = false := by decide

theorem updateLinkAlignment_encode (t : EmbedToken) (h : atomOK t) (a : Align) :
    updateLinkAlignment (encode t) (alignS a) = encode { t with align := a } := by
  obtain ⟨hb, hcap, hsz⟩ := h
  have htok : isTokenStr (encode t) = true := by rw [encode]; exact isTokenStr_tokStr _
  have hparts := parts_encode t ⟨hb, hcap, hsz⟩
  rcases t with ⟨b, a0, d0, cap, sz⟩
  cases cap with
  | some c =>
    have hcA : captionAtom c := hcap
    cases sz with
    | none =>
      simp only [updateLinkAlignment, htok, if_true, hparts, segsOf, List.append_nil,
        List.headI, if_pos (hash_mem_hashSeg b a0 d0), split_hashSeg b a0 d0 hb.2.1]
      have hbne : b ≠ darkS := baseAtom_ne_darkS hb
      cases d0 <;>
        simp [hashSeg_eq, encode, segsOf, joinSep_pair, joinSep_single, hbne,
          alignS_ne_darkS a0, List.any_cons, beq_iff_eq]
    | some z =>
      have hzA : sizeAtom z := hsz
      have hbne : b ≠ darkS := baseAtom_ne_darkS hb
      simp only [updateLinkAlignment, htok, if_true, hparts, segsOf, List.cons_append,
        List.nil_append, List.headI, if_pos (hash_mem_hashSeg b a0 d0),
        split_hashSeg b a0 d0 hb.2.1]
      cases d0 <;>
        simp [hashSeg_eq, encode, segsOf, joinSep_pair, joinSep_triple, joinSep_single,
          hbne, alignS_ne_darkS a0, List.any_cons, beq_iff_eq]
  | none =>
    have hbne : b ≠ darkS := baseAtom_ne_darkS hb
    have htb : trimS b ≠ darkS := hb.2.2.1
    have hdb : isDigitRun (trimS b) = false := hb.2.2.2.2
    have hab : isAlignB (trimS b) = false := hb.2.2.2.1
    cases sz with
    | none =>
      simp only [updateLinkAlignment, htok, if_true, hparts, segsOf, List.cons_append,
        List.nil_append, List.append_nil]
      cases d0 <;>
        simp [if_neg hb.2.1, encode, segsOf, joinSep_pair, joinSep_triple, joinSep_single,
          htb, hdb, hab, trimS_alignS, alignS_ne_darkS a0, isDigitRun_alignS,
          List.any_cons, List.find?, beq_iff_eq, trimS_darkS, isDigitRun_darkS]
    | some z =>
      have hzA : sizeAtom z := hsz
      have hz0 : isDigitRun z = true := hzA
      have hz1 : trimS z = z := digitRun_trimS hzA
      have hz2 : z.isEmpty = false := isEmpty_false_of_ne (digitRun_ne_nil hzA)
      simp only [updateLinkAlignment, htok, if_true, hparts, segsOf, List.cons_append,
        List.nil_append, List.append_nil]
      cases d0 <;>
        simp [if_neg hb.2.1, encode, segsOf, joinSep_pair, joinSep_triple, joinSep_quad,
          joinSep_single, htb, hdb, hab, trimS_alignS, alignS_ne_darkS a0,
          isDigitRun_alignS, List.any_cons, List.find?, beq_iff_eq, trimS_darkS,
          isDigitRun_darkS, hz0, hz1, hz2, digitRun_ne_darkS hzA]

theorem isAlignB_darkS : isAlignB darkS = false := by decide

theorem updateLinkDarkMode_encode (t : EmbedToken) (h : atomOK t) (d : Bool) :
    updateLinkDarkMode (encode t) d = encode { t with dark := d } := by
  obtain ⟨hb, hcap, hsz⟩ := h
  have htok : isTokenStr (encode t) = true := by rw [encode]; exact isTokenStr_tokStr _
  have hparts := parts_encode t ⟨hb, hcap, hsz⟩
  rcases t with ⟨b, a0, d0, cap, sz⟩
  have hbne : b ≠ darkS := baseAtom_ne_darkS hb
  have hbal : isAlignB b = false := baseAtom_isAlignB hb
  have htb : trimS b ≠ darkS := hb.2.2.1
  have hdb : isDigitRun (trimS b) = false := hb.2.2.2.2
  have hab : isAlignB (trimS b) = false := hb.2.2.2.1
  cases cap with
  | some c =>
    have hcA : captionAtom c := hcap
    cases sz with
    | none =>
      simp only [updateLinkDarkMode, htok, if_true, hparts, segsOf, List.append_nil,
        List.cons_append, List.nil_append, List.headI, if_pos (hash_mem_hashSeg b a0 d0),
        split_hashSeg b a0 d0 hb.2.1]
      cases d0 <;> cases d <;>
        simp [hashSeg_eq, encode, segsOf, joinSep_pair, joinSep_single, hbal,
          isAlignB_alignS, isAlignB_darkS, List.find?, beq_iff_eq]
    | some z =>
      have hzA : sizeAtom z := hsz
      simp only [updateLinkDarkMode, htok, if_true, hparts, segsOf, List.cons_append,
        List.nil_append, List.headI, if_pos (hash_mem_hashSeg b a0 d0),
        split_hashSeg b a0 d0 hb.2.1]
      cases d0 <;> cases d <;>
        simp [hashSeg_eq, encode, segsOf, joinSep_pair, joinSep_triple, joinSep_single,
          hbal, isAlignB_alignS, isAlignB_darkS, List.find?, beq_iff_eq]
  | none =>
    cases sz with
    | none =>
      simp only [updateLinkDarkMode, htok, if_true, hparts, segsOf, List.cons_append,
        List.nil_append, List.append_nil]
      cases d0 <;> cases d <;>
        simp [if_neg hb.2.1, encode, segsOf, joinSep_pair, joinSep_triple, joinSep_single,
          htb, hdb, hab, trimS_alignS, alignS_ne_darkS a0, isDigitRun_alignS,
          isAlignB_alignS, isAlignB_darkS, List.any_cons, List.find?, beq_iff_eq,
          trimS_darkS, isDigitRun_darkS]
    | some z =>
      have hzA : sizeAtom z := hsz
      have hz0 : isDigitRun z = true := hzA
      have hz1 : trimS z = z := digitRun_trimS hzA
      have hz2 : z.isEmpty = false := isEmpty_false_of_ne (digitRun_ne_nil hzA)
      simp only [updateLinkDarkMode, htok, if_true, hparts, segsOf, List.cons_append,
        List.nil_append, List.append_nil]
      cases d0 <;> cases d <;>
        simp [if_neg hb.2.1, encode, segsOf, joinSep_pair, joinSep_triple, joinSep_quad,
          joinSep_single, htb, hdb, hab, trimS_alignS, alignS_ne_darkS a0,
          isDigitRun_alignS, isAlignB_alignS, isAlignB_darkS, List.any_cons, List.find?,
          beq_iff_eq, trimS_darkS, isDigitRun_darkS, hz0, hz1, hz2,
          digitRun_ne_darkS hzA, digitRun_isAlignB hzA]

theorem digitRun_trimS_hcat_f (b : Str) (a : Align) :
    isDigitRun (trimS (b ++ '#' :: alignS a)) = false := by
  have h := digitRun_trimS_hashSeg b a false
  rw [hashSeg_eq] at h
  simpa using h

theorem digitRun_trimS_hcat_t (b : Str) (a : Align) :
    isDigitRun (trimS (b ++ '#' :: (alignS a ++ '#' :: darkS))) = false := by
  have h := digitRun_trimS_hashSeg b a true
  rw [hashSeg_eq] at h
  simpa using h

theorem updateLinkCaptionOnly_encode_set (t : EmbedToken) (h : atomOK t) (c' : Str)
    (hc : captionAtom c') :
    updateLinkCaptionOnly (encode t) c' = encode { t with caption := some c' } := by
  obtain ⟨hb, hcap, hsz⟩ := h
  have htok : isTokenStr (encode t) = true := by rw [encode]; exact isTokenStr_tokStr _
  have hparts := parts_encode t ⟨hb, hcap, hsz⟩
  have hce : c'.isEmpty = false := isEmpty_false_of_ne hc.1
  rcases t with ⟨b, a0, d0, cap, sz⟩
  have hbne : b ≠ darkS := baseAtom_ne_darkS hb
  have hbal : isAlignB b = false := baseAtom_isAlignB hb
  have htb : trimS b ≠ darkS := hb.2.2.1
  have hdb : isDigitRun (trimS b) = false := hb.2.2.2.2
  have hab : isAlignB (trimS b) = false := hb.2.2.2.1
  cases cap with
  | some c =>
    have hcA : captionAtom c := hcap
    have hcd : isDigitRun (trimS c) = false := by rw [hcA.2.1]; exact hcA.2.2.2
    cases sz with
    | none =>
      simp only [updateLinkCaptionOnly, htok, if_true, hparts, segsOf, List.append_nil,
        List.cons_append, List.nil_append, List.headI, if_pos (hash_mem_hashSeg b a0 d0),
        split_hashSeg b a0 d0 hb.2.1]
      cases d0 <;>
        simp [hashSeg_eq, encode, segsOf, joinSep_pair, joinSep_single, hbal, hbne,
          isAlignB_alignS, isAlignB_darkS, alignS_ne_darkS a0, List.any_cons,
          List.find?, beq_iff_eq, digitRun_trimS_hashSeg, digitRun_trimS_hcat_f, digitRun_trimS_hcat_t, hcd, hce,
          isDigitRun_darkS, trimS_darkS, trimS_alignS, isDigitRun_alignS]
    | some z =>
      have hzA : sizeAtom z := hsz
      have hz0 : isDigitRun z = true := hzA
      have hz1 : trimS z = z := digitRun_trimS hzA
      have hz2 : z.isEmpty = false := isEmpty_false_of_ne (digitRun_ne_nil hzA)
      simp only [updateLinkCaptionOnly, htok, if_true, hparts, segsOf, List.cons_append,
        List.nil_append, List.headI, if_pos (hash_mem_hashSeg b a0 d0),
        split_hashSeg b a0 d0 hb.2.1]
      cases d0 <;>
        simp [hashSeg_eq, encode, segsOf, joinSep_pair, joinSep_triple, joinSep_single,
          hbal, hbne, isAlignB_alignS, isAlignB_darkS, alignS_ne_darkS a0,
          List.any_cons, List.find?, beq_iff_eq, digitRun_trimS_hashSeg, digitRun_trimS_hcat_f, digitRun_trimS_hcat_t, hcd, hce,
          hz0, hz1, hz2, isDigitRun_darkS, trimS_darkS, trimS_alignS, isDigitRun_alignS]
  | none =>
    cases sz with
    | none =>
      simp only [updateLinkCaptionOnly, htok, if_true, hparts, segsOf, List.cons_append,
        List.nil_append, List.append_nil]
      cases d0 <;>
        simp [if_neg hb.2.1, hashSeg_eq, encode, segsOf, joinSep_pair, joinSep_triple,
          joinSep_single, htb, hdb, hab, trimS_alignS, alignS_ne_darkS a0,
          isDigitRun_alignS, isAlignB_alignS, isAlignB_darkS, List.any_cons, List.find?,
          beq_iff_eq, trimS_darkS, isDigitRun_darkS, hce]
    | some z =>
      have hzA : sizeAtom z := hsz
      have hz0 : isDigitRun z = true := hzA
      have hz1 : trimS z = z := digitRun_trimS hzA
      have hz2 : z.isEmpty = false := isEmpty_false_of_ne (digitRun_ne_nil hzA)
      simp only [updateLinkCaptionOnly, htok, if_true, hparts, segsOf, List.cons_append,
        List.nil_append, List.append_nil]
      cases d0 <;>
        simp [if_neg hb.2.1, hashSeg_eq, encode, segsOf, joinSep_pair, joinSep_triple,
          joinSep_quad, joinSep_single, htb, hdb, hab, trimS_alignS, alignS_ne_darkS a0,
          isDigitRun_alignS, isAlignB_alignS, isAlignB_darkS, List.any_cons, List.find?,
          beq_iff_eq, trimS_darkS, isDigitRun_darkS, hce, hz0, hz1, hz2,
          digitRun_ne_darkS hzA, digitRun_isAlignB hzA]

theorem updateLinkCaptionOnly_encode_clear (t : EmbedToken) (h : atomOK t) :
    updateLinkCaptionOnly (encode t) [] = encode { t with caption := none } := by
  obtain ⟨hb, hcap, hsz⟩ := h
  have htok : isTokenStr (encode t) = true := by rw [encode]; exact isTokenStr_tokStr _
  have hparts := parts_encode t ⟨hb, hcap, hsz⟩
  rcases t with ⟨b, a0, d0, cap, sz⟩
  have hbne : b ≠ darkS := baseAtom_ne_darkS hb
  have hbal : isAlignB b = false := baseAtom_isAlignB hb
  have htb : trimS b ≠ darkS := hb.2.2.1
  have hdb : isDigitRun (trimS b) = false := hb.2.2.2.2
  have hab : isAlignB (trimS b) = false := hb.2.2.2.1
  cases cap with
  | some c =>
    have hcA : captionAtom c := hcap
    have hcd : isDigitRun (trimS c) = false := by rw [hcA.2.1]; exact hcA.2.2.2
    cases sz with
    | none =>
      simp only [updateLinkCaptionOnly, htok, if_true, hparts, segsOf, List.append_nil,
        List.cons_append, List.nil_append, List.headI, if_pos (hash_mem_hashSeg b a0 d0),
        split_hashSeg b a0 d0 hb.2.1]
      cases d0 <;>
        simp [hashSeg_eq, encode, segsOf, joinSep_pair, joinSep_triple, joinSep_quad,
          joinSep_single, hbal, hbne,
          isAlignB_alignS, isAlignB_darkS, alignS_ne_darkS a0, List.any_cons,
          List.find?, beq_iff_eq, digitRun_trimS_hashSeg, digitRun_trimS_hcat_f, digitRun_trimS_hcat_t, hcd,
          isDigitRun_darkS, trimS_darkS, trimS_alignS, isDigitRun_alignS]
    | some z =>
      have hzA : sizeAtom z := hsz
      have hz0 : isDigitRun z = true := hzA
      have hz1 : trimS z = z := digitRun_trimS hzA
      have hz2 : z.isEmpty = false := isEmpty_false_of_ne (digitRun_ne_nil hzA)
      simp only [updateLinkCaptionOnly, htok, if_true, hparts, segsOf, List.cons_append,
        List.nil_append, List.headI, if_pos (hash_mem_hashSeg b a0 d0),
        split_hashSeg b a0 d0 hb.2.1]
      cases d0 <;>
        simp [hashSeg_eq, encode, segsOf, joinSep_pair, joinSep_triple, joinSep_quad,
          joinSep_single,
          hbal, hbne, isAlignB_alignS, isAlignB_darkS, alignS_ne_darkS a0,
          List.any_cons, List.find?, beq_iff_eq, digitRun_trimS_hashSeg, digitRun_trimS_hcat_f, digitRun_trimS_hcat_t, hcd,
          hz0, hz1, hz2, isDigitRun_darkS, trimS_darkS, trimS_alignS, isDigitRun_alignS]
  | none =>
    cases sz with
    | none =>
      simp only [updateLinkCaptionOnly, htok, if_true, hparts, segsOf, List.cons_append,
        List.nil_append, List.append_nil]
      cases d0 <;>
        simp [if_neg hb.2.1, encode, segsOf, joinSep_pair, joinSep_triple, joinSep_single,
          htb, hdb, hab, trimS_alignS, alignS_ne_darkS a0, isDigitRun_alignS,
          isAlignB_alignS, isAlignB_darkS, List.any_cons, List.find?, beq_iff_eq,
          trimS_darkS, isDigitRun_darkS]
    | some z =>
      have hzA : sizeAtom z := hsz
      have hz0 : isDigitRun z = true := hzA
      have hz1 : trimS z = z := digitRun_trimS hzA
      have hz2 : z.isEmpty = false := isEmpty_false_of_ne (digitRun_ne_nil hzA)
      simp only [updateLinkCaptionOnly, htok, if_true, hparts, segsOf, List.cons_append,
        List.nil_append, List.append_nil]
      cases d0 <;>
        simp [if_neg hb.2.1, encode, segsOf, joinSep_pair, joinSep_triple, joinSep_quad,
          joinSep_single, htb, hdb, hab, trimS_alignS, alignS_ne_darkS a0,
          isDigitRun_alignS, isAlignB_alignS, isAlignB_darkS, List.any_cons, List.find?,
          beq_iff_eq, trimS_darkS, isDigitRun_darkS, hz0, hz1, hz2,
          digitRun_ne_darkS hzA, digitRun_isAlignB hzA]

theorem extractCaption_encode (t : EmbedToken) (h : atomOK t) :
    extractCaptionFromLink (encode t) =
      (match t.caption with | some c => c | none => []) := by
  obtain ⟨hb, hcap, hsz⟩ := h
  have htok : isTokenStr (encode t) = true := by rw [encode]; exact isTokenStr_tokStr _
  have hparts := parts_encode t ⟨hb, hcap, hsz⟩
  rcases t with ⟨b, a0, d0, cap, sz⟩
  have hbne : b ≠ darkS := baseAtom_ne_darkS hb
  have htb : trimS b ≠ darkS := hb.2.2.1
  have hdb : isDigitRun (trimS b) = false := hb.2.2.2.2
  have hab : isAlignB (trimS b) = false := hb.2.2.2.1
  cases cap with
  | some c =>
    have hcA : captionAtom c := hcap
    have hcd : isDigitRun (trimS c) = false := by rw [hcA.2.1]; exact hcA.2.2.2
    cases sz with
    | none =>
      simp only [extractCaptionFromLink, htok, if_true, hparts, segsOf, List.append_nil,
        List.cons_append, List.nil_append, List.headI, List.tail_cons]
      simp [if_pos (hash_mem_hashSeg b a0 d0), List.find?, hcd, hcA.2.2.2, hcA.2.1]
    | some z =>
      have hzA : sizeAtom z := hsz
      simp only [extractCaptionFromLink, htok, if_true, hparts, segsOf,
        List.cons_append, List.nil_append, List.headI, List.tail_cons]
      simp [if_pos (hash_mem_hashSeg b a0 d0), List.find?, hcd, hcA.2.2.2, hcA.2.1]
  | none =>
    cases sz with
    | none =>
      simp only [extractCaptionFromLink, htok, if_true, hparts, segsOf,
        List.cons_append, List.nil_append, List.append_nil]
      cases d0 <;>
        simp [if_neg hb.2.1, List.find?, trimS_alignS, isAlignB_alignS, trimS_darkS,
          beq_iff_eq]
    | some z =>
      have hzA : sizeAtom z := hsz
      have hz0 : isDigitRun z = true := hzA
      have hz1 : trimS z = z := digitRun_trimS hzA
      simp only [extractCaptionFromLink, htok, if_true, hparts, segsOf,
        List.cons_append, List.nil_append, List.append_nil]
      cases d0 <;>
        simp [if_neg hb.2.1, List.find?, trimS_alignS, isAlignB_alignS, trimS_darkS,
          beq_iff_eq, hz0, hz1]

theorem decode_encode (t : EmbedToken) (h : atomOK t) : decode (encode t) = some t := by
  obtain ⟨hb, hcap, hsz⟩ := h
  have htok : isTokenStr (encode t) = true := by rw [encode]; exact isTokenStr_tokStr _
  have hparts := parts_encode t ⟨hb, hcap, hsz⟩
  have hcapE := extractCaption_encode t ⟨hb, hcap, hsz⟩
  rcases t with ⟨b, a0, d0, cap, sz⟩
  have hbne : b ≠ darkS := baseAtom_ne_darkS hb
  have hbal : isAlignB b = false := baseAtom_isAlignB hb
  have htb : trimS b ≠ darkS := hb.2.2.1
  have hdb : isDigitRun (trimS b) = false := hb.2.2.2.2
  have hab : isAlignB (trimS b) = false := hb.2.2.2.1
  cases cap with
  | some c =>
    have hcA : captionAtom c := hcap
    have hcd : isDigitRun (trimS c) = false := by rw [hcA.2.1]; exact hcA.2.2.2
    have hc1 : c.isEmpty = false := isEmpty_false_of_ne hcA.1
    cases sz with
    | none =>
      simp only [decode, htok, if_true, hparts, hcapE, segsOf, List.append_nil,
        List.cons_append, List.nil_append, List.headI,
        if_pos (hash_mem_hashSeg b a0 d0), split_hashSeg b a0 d0 hb.2.1]
      cases d0 <;>
        simp [List.find?, List.any_cons, beq_iff_eq, hbal, hbne, isAlignB_alignS,
          isAlignB_darkS, alignS_ne_darkS a0, strToAlign_alignS, hc1, hcd,
          digitRun_trimS_hashSeg, isDigitRun_darkS, trimS_darkS, trimS_alignS,
          isDigitRun_alignS]
    | some z =>
      have hzA : sizeAtom z := hsz
      have hz0 : isDigitRun z = true := hzA
      have hz1 : trimS z = z := digitRun_trimS hzA
      simp only [decode, htok, if_true, hparts, hcapE, segsOf,
        List.cons_append, List.nil_append, List.headI,
        if_pos (hash_mem_hashSeg b a0 d0), split_hashSeg b a0 d0 hb.2.1]
      cases d0 <;>
        simp [List.find?, List.any_cons, beq_iff_eq, hbal, hbne, isAlignB_alignS,
          isAlignB_darkS, alignS_ne_darkS a0, strToAlign_alignS, hc1, hcd,
          digitRun_trimS_hashSeg, isDigitRun_darkS, trimS_darkS, trimS_alignS,
          isDigitRun_alignS, hz0, hz1]
  | none =>
    cases sz with
    | none =>
      simp only [decode, htok, if_true, hparts, hcapE, segsOf,
        List.cons_append, List.nil_append, List.append_nil]
      cases d0 <;>
        simp [if_neg hb.2.1, List.find?, List.any_cons, beq_iff_eq, htb, hdb, hab,
          trimS_alignS, alignS_ne_darkS a0, isDigitRun_alignS, isAlignB_alignS,
          isAlignB_darkS, strToAlign_alignS, trimS_darkS, isDigitRun_darkS]
    | some z =>
      have hzA : sizeAtom z := hsz
      have hz0 : isDigitRun z = true := hzA
      have hz1 : trimS z = z := digitRun_trimS hzA
      simp only [decode, htok, if_true, hparts, hcapE, segsOf,
        List.cons_append, List.nil_append, List.append_nil]
      cases d0 <;>
        simp [if_neg hb.2.1, List.find?, List.any_cons, beq_iff_eq, htb, hdb, hab,
          trimS_alignS, alignS_ne_darkS a0, isDigitRun_alignS, isAlignB_alignS,
          isAlignB_darkS, strToAlign_alignS, trimS_darkS, isDigitRun_darkS, hz0, hz1,
          digitRun_ne_darkS hzA, digitRun_isAlignB hzA]

/-- C1 (amended): for every grammar-representable token and every supplied
value that the grammar can carry (alignments and dark flags always; captions
when they are representable caption atoms, or empty meaning "clear"),
re-decoding a single-field updater's output yields exactly the decoded input
token with only the updated field changed, and decoding the canonical encoding
itself is the identity. -/
theorem c1_single_field_update_isolation (t : EmbedToken) (hT : atomOK t) (a : Align)
    (d : Bool) (c : Str) (hc : captionAtom c) :
    decode (encode t) = some t ∧
    decode (updateLinkAlignment (encode t) (alignS a)) = some { t with align := a } ∧
    decode (updateLinkDarkMode (encode t) d) = some { t with dark := d } ∧
    decode (updateLinkCaptionOnly (encode t) c) = some { t with caption := some c } ∧
    decode (updateLinkCaptionOnly (encode t) []) = some { t with caption := none } := by
  obtain ⟨hb, hcp, hsz⟩ := hT
  refine ⟨decode_encode t ⟨hb, hcp, hsz⟩, ?_, ?_, ?_, ?_⟩
  · rw [updateLinkAlignment_encode t ⟨hb, hcp, hsz⟩ a]
    exact decode_encode _ ⟨hb, hcp, hsz⟩
  · rw [updateLinkDarkMode_encode t ⟨hb, hcp, hsz⟩ d]
    exact decode_encode _ ⟨hb, hcp, hsz⟩
  · rw [updateLinkCaptionOnly_encode_set t ⟨hb, hcp, hsz⟩ c hc]
    exact decode_encode _ ⟨hb, hc, hsz⟩
  · rw [updateLinkCaptionOnly_encode_clear t ⟨hb, hcp, hsz⟩]
    exact decode_encode _ ⟨hb, trivial, hsz⟩

/-- Witness for C1 at a concrete token and concrete updated values. -/
theorem c1_single_field_update_isolation_witness :
    atomOK tokA ∧ captionAtom (strL "new cap") ∧
    (decode (encode tokA) = some tokA ∧
     decode (updateLinkAlignment (encode tokA) (alignS Align.center)) =
       some { tokA with align := Align.center } ∧
     decode (updateLinkDarkMode (encode tokA) false) = some { tokA with dark := false } ∧
     decode (updateLinkCaptionOnly (encode tokA) (strL "new cap")) =
       some { tokA with caption := some (strL "new cap") } ∧
     decode (updateLinkCaptionOnly (encode tokA) []) =
       some { tokA with caption := none }) :=
  ⟨by decide, by decide,
    c1_single_field_update_isolation tokA (by decide) Align.center false _ (by decide)⟩

/-- C1 as frozen is false for an arbitrary supplied caption: updating the
caption of `![[a.png#center|cap]]` to the digit run `123` produces
`![[a.png#center|123]]`, which decodes with caption absent and size `123`, so
the caption field does not equal the supplied value and the size field changed
too. -/
theorem c1_counterexample_digit_caption :
    updateLinkCaptionOnly (strL "![[a.png#center|cap]]") (strL "123") =
      strL "![[a.png#center|123]]" ∧
    decode (strL "![[a.png#center|cap]]") =
      some { base := strL "a.png", align := Align.center, dark := false,
             caption := some (strL "cap"), size := none } ∧
    decode (strL "![[a.png#center|123]]") =
      some { base := strL "a.png", align := Align.center, dark := false,
             caption := none, size := some (strL "123") } :=
  ⟨by decide, by decide, by decide⟩

/-- C2: clearing the caption of `![[diagram.png#center|My Caption]]` yields
exactly `![[diagram.png|center]]`, and in general clearing the caption of any
representable hash-encoded token without a size emits the pipe encoding with an
explicit alignment keyword. -/
theorem c2_clear_caption_downgrades (t : EmbedToken) (h : atomOK t)
    (_hcap : t.caption.isSome = true) (hsz : t.size = none) :
    updateLinkCaptionOnly (strL "![[diagram.png#center|My Caption]]") [] =
      strL "![[diagram.png|center]]" ∧
    updateLinkCaptionOnly (encode t) [] =
      tokStr (joinSep '|' ([t.base] ++ (if t.dark then [darkS] else [])
        ++ [alignS t.align])) := by
  refine ⟨by decide, ?_⟩
  rw [updateLinkCaptionOnly_encode_clear t h]
  simp [encode, segsOf, hsz]

/-- Witness for C2 at the spec's own example token. -/
theorem c2_clear_caption_downgrades_witness :
    atomOK tokB ∧ (tokB.caption).isSome = true ∧ tokB.size = none ∧
    updateLinkCaptionOnly (encode tokB) [] =
      tokStr (joinSep '|' ([tokB.base] ++ (if tokB.dark then [darkS] else [])
        ++ [alignS tokB.align])) :=
  ⟨by decide, by decide, rfl,
    (c2_clear_caption_downgrades tokB (by decide) (by decide) rfl).2⟩

/-- C9: a string that does not start with `![[` or does not end with `]]` is
returned unchanged by all three updaters, for every supplied value. -/
theorem c9_malformed_tokens_never_rewritten (s a c : Str) (d : Bool)
    (h : startsW bOpen s = false ∨ endsW bClose s = false) :
    updateLinkAlignment s a = s ∧ updateLinkDarkMode s d = s ∧
      updateLinkCaptionOnly s c = s := by
  have hts : isTokenStr s = false := by
    rcases h with h | h <;> simp [isTokenStr, h]
  exact ⟨by simp [updateLinkAlignment, hts], by simp [updateLinkDarkMode, hts],
    by simp [updateLinkCaptionOnly, hts]⟩

/-- Witness for C9 on a plain word. -/
theorem c9_malformed_tokens_never_rewritten_witness :
    (startsW bOpen (strL "hello") = false ∨ endsW bClose (strL "hello") = false) ∧
    (updateLinkAlignment (strL "hello") (strL "left") = strL "hello" ∧
     updateLinkDarkMode (strL "hello") true = strL "hello" ∧
     updateLinkCaptionOnly (strL "hello") (strL "cap") = strL "hello") :=
  ⟨Or.inl (by decide),
    c9_malformed_tokens_never_rewritten _ _ _ true (Or.inl (by decide))⟩

/-- C10: whenever the configured interval exceeds 1, the width passed to the
link updater at drag end is an exact multiple of the interval, and a width that
is already a multiple passes through unchanged. -/
theorem c10_snap_to_interval (w : Nat) (lu : Int) (iv : Nat) (h : 1 < iv) :
    iv ∣ endDragFinalWidth w lu iv ∧ (w % iv = 0 → endDragFinalWidth w lu iv = w) := by
  constructor
  · unfold endDragFinalWidth
    rw [if_pos h]
    by_cases hw : w % iv = 0
    · rw [if_neg (by simpa using hw)]
      exact Nat.dvd_of_mod_eq_zero hw
    · rw [if_pos (by simpa using hw)]
      refine Dvd.dvd.add (dvd_mul_left iv (w / iv)) ?_
      split
      · exact dvd_rfl
      · exact dvd_zero iv
  · intro hw
    unfold endDragFinalWidth
    rw [if_pos h, if_neg (by simpa using hw)]

/-- Witness for C10: interval 10, width 47 snaps to a multiple, width 40 stays. -/
theorem c10_snap_to_interval_witness :
    (1 : Nat) < 10 ∧
    (10 ∣ endDragFinalWidth 47 1 10 ∧ (47 % 10 = 0 → endDragFinalWidth 47 1 10 = 47)) ∧
    (10 ∣ endDragFinalWidth 40 1 10 ∧ (40 % 10 = 0 → endDragFinalWidth 40 1 10 = 40)) :=
  ⟨by decide, c10_snap_to_interval 47 1 10 (by decide), c10_snap_to_interval 40 1 10 (by decide)⟩

theorem closestFold_spec (t : Nat) (ms : List ImageMatch) :
    ∀ acc, (closestFold t ms acc = acc ∨ closestFold t ms acc ∈ ms) ∧
      lineDist (closestFold t ms acc) t ≤ lineDist acc t ∧
      ∀ m ∈ ms, lineDist (closestFold t ms acc) t ≤ lineDist m t := by
  induction ms with
  | nil => intro acc; simp [closestFold]
  | cons m rest ih =>
    intro acc
    obtain ⟨hmem, hle, hall⟩ := ih (if lineDist m t < lineDist acc t then m else acc)
    have hstep : closestFold t (m :: rest) acc =
        closestFold t rest (if lineDist m t < lineDist acc t then m else acc) := rfl
    have hle2 : lineDist (if lineDist m t < lineDist acc t then m else acc) t ≤
        lineDist acc t := by split <;> omega
    have hlem : lineDist (if lineDist m t < lineDist acc t then m else acc) t ≤
        lineDist m t := by split <;> omega
    refine ⟨?_, ?_, ?_⟩
    · rw [hstep]
      rcases hmem with h | h
      · rw [h]
        split
        · exact Or.inr (by simp)
        · exact Or.inl rfl
      · exact Or.inr (List.mem_cons_of_mem _ h)
    · rw [hstep]; exact le_trans hle hle2
    · intro x hx
      rw [hstep]
      rcases List.mem_cons.mp hx with e | hx'
      · subst e; exact le_trans hle hlem
      · exact hall x hx'

/-- C3: a unique match is returned unconditionally; with several matches and a
position hint an exact line-number hit wins immediately; otherwise a match of
minimum distance is returned whenever some match lies within 5 lines; and on
the spec's instances {1,5,9} a hint of 5 picks line 5 while a hint of 20 picks
line 1 (first in document order). -/
theorem c3_disambiguation_determinism :
    (∀ (m : ImageMatch) (hint : Option Nat), findSingleImageMatch [m] hint = some m) ∧
    (∀ (m0 m1 : ImageMatch) (rest : List ImageMatch) (t : Nat) (e : ImageMatch),
      (m0 :: m1 :: rest).find? (fun m => m.lineNumber == t) = some e →
      findSingleImageMatch (m0 :: m1 :: rest) (some t) = some e) ∧
    (∀ (m0 m1 : ImageMatch) (rest : List ImageMatch) (t : Nat),
      (m0 :: m1 :: rest).find? (fun m => m.lineNumber == t) = none →
      (∃ m ∈ m0 :: m1 :: rest, lineDist m t ≤ 5) →
      ∃ r, findSingleImageMatch (m0 :: m1 :: rest) (some t) = some r ∧
        r ∈ m0 :: m1 :: rest ∧ ∀ m ∈ m0 :: m1 :: rest, lineDist r t ≤ lineDist m t) ∧
    findSingleImageMatch [⟨1, [], []⟩, ⟨5, [], []⟩, ⟨9, [], []⟩] (some 5) =
      some ⟨5, [], []⟩ ∧
    findSingleImageMatch [⟨1, [], []⟩, ⟨5, [], []⟩, ⟨9, [], []⟩] (some 20) =
      some ⟨1, [], []⟩ := by
  refine ⟨fun m hint => rfl, ?_, ?_, by decide, by decide⟩
  · intro m0 m1 rest t e hfind
    simp [findSingleImageMatch, hfind]
  · intro m0 m1 rest t hfind hex
    obtain ⟨me, hme, hdist⟩ := hex
    obtain ⟨hmem, -, hall⟩ := closestFold_spec t (m0 :: m1 :: rest) m0
    have hcm5 : lineDist (closestFold t (m0 :: m1 :: rest) m0) t ≤ 5 :=
      le_trans (hall me hme) hdist
    refine ⟨closestFold t (m0 :: m1 :: rest) m0, ?_, ?_, hall⟩
    · simp [findSingleImageMatch, hfind, hcm5]
    · rcases hmem with h | h
      · rw [h]; simp
      · exact h

/-- Witness for C3's hypothesis-bearing clause at matches {1,5} and hint 4. -/
theorem c3_disambiguation_determinism_witness :
    ([⟨1, [], []⟩, ⟨5, [], []⟩] : List ImageMatch).find?
      (fun m => m.lineNumber == 4) = none ∧
    (∃ m ∈ ([⟨1, [], []⟩, ⟨5, [], []⟩] : List ImageMatch), lineDist m 4 ≤ 5) ∧
    (∃ r, findSingleImageMatch [⟨1, [], []⟩, ⟨5, [], []⟩] (some 4) = some r ∧
      r ∈ ([⟨1, [], []⟩, ⟨5, [], []⟩] : List ImageMatch) ∧
      ∀ m ∈ ([⟨1, [], []⟩, ⟨5, [], []⟩] : List ImageMatch), lineDist r 4 ≤ lineDist m 4) :=
  ⟨by decide, by decide,
    c3_disambiguation_determinism.2.2.1 _ _ [] 4 (by decide) (by decide)⟩

/-- C8: after `updateKey(oldPath, newPath)` on distinct paths, a lookup on the
new path returns the previously cached value unchanged and a lookup on the old
path misses. -/
theorem c8_rename_preserves_cache (c : Cache) (oldK newK : Str)
    (v : ReferenceCheckResult) (hne : oldK ≠ newK) (hold : cacheGet c oldK = some v) :
    cacheGet (cacheUpdateKey c oldK newK) newK = some v ∧
    cacheGet (cacheUpdateKey c oldK newK) oldK = none := by
  have he : c oldK = some v := hold
  unfold cacheUpdateKey
  rw [he]
  constructor
  · simp [cacheGet, cacheSet]
  · simp [cacheGet, cacheSet, cacheDeleteEntry, hne]

/-- Witness for C8 on a one-entry cache. -/
theorem c8_rename_preserves_cache_witness :
    (strL "a.png" ≠ strL "b.png") ∧
    cacheGet (cacheSet cacheEmpty (strL "a.png") ⟨[], 0⟩) (strL "a.png") = some ⟨[], 0⟩ ∧
    (cacheGet (cacheUpdateKey (cacheSet cacheEmpty (strL "a.png") ⟨[], 0⟩)
        (strL "a.png") (strL "b.png")) (strL "b.png") = some ⟨[], 0⟩ ∧
     cacheGet (cacheUpdateKey (cacheSet cacheEmpty (strL "a.png") ⟨[], 0⟩)
        (strL "a.png") (strL "b.png")) (strL "a.png") = none) :=
  ⟨by decide, by decide,
    c8_rename_preserves_cache _ _ _ _ (by decide) (by decide)⟩

/-- C6: the first `checkReferences` run on a descriptor populates the cache for
its path with the collaborator's complete result, and a second run with any
descriptor of the same path returns it enriched with exactly that cached value,
leaves the cache unchanged, and issues no collaborator query. -/
theorem c6_cache_correctness (bl : Str → List (Str × List BacklinkOcc))
    (resolve : Str → Bool) (d d' : ImageItem) (hp : d'.path = d.path) :
    cacheGet (checkReferences bl resolve cacheEmpty [d]).2.1 d'.path =
      some ⟨findReferencesUsingBacklinks bl resolve d,
        (findReferencesUsingBacklinks bl resolve d).length⟩ ∧
    checkReferences bl resolve (checkReferences bl resolve cacheEmpty [d]).2.1 [d'] =
      ([enrichItem d' ⟨findReferencesUsingBacklinks bl resolve d,
          (findReferencesUsingBacklinks bl resolve d).length⟩],
        (checkReferences bl resolve cacheEmpty [d]).2.1, []) := by
  have h1 : checkReferences bl resolve cacheEmpty [d] =
      ([enrichItem d ⟨findReferencesUsingBacklinks bl resolve d,
          (findReferencesUsingBacklinks bl resolve d).length⟩],
        cacheSet cacheEmpty d.path ⟨findReferencesUsingBacklinks bl resolve d,
          (findReferencesUsingBacklinks bl resolve d).length⟩, []  ++ [d.path]) := by
    simp [checkReferences, checkRefsStep, cacheHas, cacheEmpty]
  rw [h1]
  have h2 : cacheGet (cacheSet cacheEmpty d.path
      ⟨findReferencesUsingBacklinks bl resolve d,
        (findReferencesUsingBacklinks bl resolve d).length⟩) d'.path =
      some ⟨findReferencesUsingBacklinks bl resolve d,
        (findReferencesUsingBacklinks bl resolve d).length⟩ := by
    simp [cacheGet, cacheSet, hp]
  refine ⟨h2, ?_⟩
  have h3 : cacheHas (cacheSet cacheEmpty d.path
      ⟨findReferencesUsingBacklinks bl resolve d,
        (findReferencesUsingBacklinks bl resolve d).length⟩) d'.path = true := by
    simp [cacheHas, cacheSet, hp]
  simp [checkReferences, checkRefsStep, h3, h2]

/-- Witness for C6 with a concrete item queried through a concrete collaborator. -/
theorem c6_cache_correctness_witness :
    itemA.path = itemA.path ∧
    (cacheGet (checkReferences blA resolveTrue cacheEmpty [itemA]).2.1 itemA.path =
      some ⟨findReferencesUsingBacklinks blA resolveTrue itemA,
        (findReferencesUsingBacklinks blA resolveTrue itemA).length⟩ ∧
     checkReferences blA resolveTrue
        (checkReferences blA resolveTrue cacheEmpty [itemA]).2.1 [itemA] =
      ([enrichItem itemA ⟨findReferencesUsingBacklinks blA resolveTrue itemA,
          (findReferencesUsingBacklinks blA resolveTrue itemA).length⟩],
        (checkReferences blA resolveTrue cacheEmpty [itemA]).2.1, [])) :=
  ⟨rfl, c6_cache_correctness blA resolveTrue itemA itemA rfl⟩

/-- C7 (amended): when a collaborator call throws during `checkReferences`, the
caller receives the collaborator's error payload unmodified, and every cache
entry that differs from the starting cache is the complete result of a
descriptor whose resolution completed successfully — in particular no entry
(partial or otherwise) exists for any descriptor whose resolution did not
complete. -/
theorem c7_collaborator_failure_cache (bl : Str → Except Str (List (Str × List BacklinkOcc)))
    (resolve : Str → Bool) :
    ∀ (items : List ImageItem) (cache : Cache) (queried : List Str)
      (outs : List ImageItem) (e : Str) (c1 : Cache),
      checkReferencesE bl resolve cache queried outs items = .error (e, c1) →
      (∃ it ∈ items, bl (resolutionTarget it) = .error e) ∧
      (∀ p, c1 p ≠ cache p →
        ∃ it ∈ items, it.path = p ∧
          ∃ refs, findReferencesE bl resolve it = .ok refs ∧
            c1 p = some ⟨refs, refs.length⟩) := by
  intro items
  induction items with
  | nil =>
    intro cache queried outs e c1 h
    simp [checkReferencesE] at h
  | cons it rest ih =>
    intro cache queried outs e c1 h
    rw [checkReferencesE] at h
    by_cases hhas : cacheHas cache it.path = true
    · rw [if_pos hhas] at h
      obtain ⟨hex, hmod⟩ := ih _ _ _ _ _ h
      refine ⟨?_, ?_⟩
      · obtain ⟨it', m, he⟩ := hex
        exact ⟨it', List.mem_cons_of_mem _ m, he⟩
      · intro p hp
        obtain ⟨it', m, hpath, refs', hok, hval⟩ := hmod p hp
        exact ⟨it', List.mem_cons_of_mem _ m, hpath, refs', hok, hval⟩
    · rw [if_neg hhas] at h
      cases hfr : findReferencesE bl resolve it with
      | error e0 =>
        rw [hfr] at h
        have h' : (e0, cache) = (e, c1) := Except.error.inj h
        have he1 : e0 = e := congrArg Prod.fst h'
        have he2 : cache = c1 := congrArg Prod.snd h'
        subst he1
        subst he2
        refine ⟨⟨it, by simp, ?_⟩, fun p hp => absurd rfl hp⟩
        unfold findReferencesE at hfr
        cases hbl : bl (resolutionTarget it) with
        | error e1 =>
          rw [hbl] at hfr
          simp [Except.map] at hfr
          rw [← hfr]
        | ok l =>
          rw [hbl] at hfr
          simp [Except.map] at hfr
      | ok refs =>
        rw [hfr] at h
        obtain ⟨hex, hmod⟩ := ih _ _ _ _ _ h
        refine ⟨?_, ?_⟩
        · obtain ⟨it', m, he⟩ := hex
          exact ⟨it', List.mem_cons_of_mem _ m, he⟩
        · intro p hp
          by_cases hpe : c1 p = (cacheSet cache it.path ⟨refs, refs.length⟩) p
          · by_cases hpq : p = it.path
            · subst hpq
              refine ⟨it, by simp, rfl, refs, hfr, ?_⟩
              rw [hpe]
              simp [cacheSet]
            · exfalso
              apply hp
              rw [hpe]
              simp [cacheSet, hpq]
          · obtain ⟨it', m, hpath, refs', hok, hval⟩ := hmod p hpe
            exact ⟨it', List.mem_cons_of_mem _ m, hpath, refs', hok, hval⟩

/-- C7 as frozen is false: with descriptors `[a.png, b.png]` where `a.png`
resolves and `b.png` throws, the propagated error is the collaborator's payload
but the cache at the moment of failure holds an entry for `a.png` that the
starting (empty) cache did not — the cache is not left unmodified. -/
theorem c7_counterexample_cache_modified :
    errPayload (checkReferencesE blB resolveTrue cacheEmpty [] [] [itemB1, itemB2]) =
      some (strL "boom") ∧
    errCacheAt (strL "a.png")
        (checkReferencesE blB resolveTrue cacheEmpty [] [] [itemB1, itemB2]) =
      some (some ⟨[], 0⟩) ∧
    cacheEmpty (strL "a.png") = none :=
  ⟨by decide, by decide, rfl⟩

/-- Witness for C7 on the concrete failing run. -/
theorem c7_collaborator_failure_cache_witness :
    checkReferencesE blB resolveTrue cacheEmpty [] [] [itemB1, itemB2] =
      .error (strL "boom", cacheSet cacheEmpty (strL "a.png") ⟨[], 0⟩) ∧
    ((∃ it ∈ [itemB1, itemB2], blB (resolutionTarget it) = .error (strL "boom")) ∧
     (∀ p, cacheSet cacheEmpty (strL "a.png") (⟨[], 0⟩ : ReferenceCheckResult) p ≠
        cacheEmpty p →
       ∃ it ∈ [itemB1, itemB2], it.path = p ∧
         ∃ refs, findReferencesE blB resolveTrue it = .ok refs ∧
           cacheSet cacheEmpty (strL "a.png") (⟨[], 0⟩ : ReferenceCheckResult) p =
             some ⟨refs, refs.length⟩)) :=
  ⟨rfl, c7_collaborator_failure_cache blB resolveTrue [itemB1, itemB2] cacheEmpty [] []
    (strL "boom") _ rfl⟩

theorem scanDownAux_mem (p : Str → Bool) (f : Str → List LinkMatch) (doc : List Str) :
    ∀ (fuel i l : Nat) (m : LinkMatch), doc.length + 1 - i ≤ fuel →
      ((l, m) ∈ scanDownAux p f doc fuel i ↔
        (i ≤ l ∧ l ≤ doc.length ∧ (∀ j, i ≤ j → j ≤ l → p (lineAt doc j) = true) ∧
          m ∈ f (lineAt doc l))) := by
  intro fuel
  induction fuel with
  | zero =>
    intro i l m hf
    simp only [scanDownAux, List.not_mem_nil, false_iff]
    rintro ⟨h1, h2, -, -⟩
    omega
  | succ fuel ih =>
    intro i l m hf
    rw [scanDownAux]
    by_cases hb : doc.length < i
    · rw [if_pos hb]
      simp only [List.not_mem_nil, false_iff]
      rintro ⟨h1, h2, -, -⟩
      omega
    · rw [if_neg hb]
      by_cases hp : p (lineAt doc i) = true
      · rw [if_pos hp, List.mem_append]
        constructor
        · intro h
          rcases h with h | h
          · rcases List.mem_map.mp h with ⟨m', hm', he⟩
            injection he with he1 he2
            subst he1
            subst he2
            refine ⟨le_refl _, by omega, fun j hj1 hj2 => ?_, hm'⟩
            have hj : j = i := by omega
            rw [hj]
            exact hp
          · obtain ⟨h1, h2, h3, h4⟩ := (ih (i + 1) l m (by omega)).mp h
            refine ⟨by omega, h2, fun j hj1 hj2 => ?_, h4⟩
            rcases Nat.eq_or_lt_of_le hj1 with he | hlt
            · rw [← he]
              exact hp
            · exact h3 j (by omega) hj2
        · rintro ⟨h1, h2, h3, h4⟩
          rcases Nat.eq_or_lt_of_le h1 with he | hlt
          · refine Or.inl (List.mem_map.mpr ⟨m, ?_, ?_⟩)
            · rw [he]; exact h4
            · rw [he]
          · refine Or.inr ((ih (i + 1) l m (by omega)).mpr
              ⟨by omega, h2, fun j hj1 hj2 => h3 j (by omega) hj2, h4⟩)
      · rw [if_neg hp]
        simp only [List.not_mem_nil, false_iff]
        rintro ⟨h1, h2, h3, -⟩
        exact hp (h3 i (le_refl _) h1)

theorem scanUp_mem (p : Str → Bool) (f : Str → List LinkMatch) (doc : List Str) :
    ∀ (i l : Nat) (m : LinkMatch),
      ((l, m) ∈ scanUp p f doc i ↔
        (1 ≤ l ∧ l ≤ i ∧ (∀ j, l ≤ j → j ≤ i → p (lineAt doc j) = true) ∧
          m ∈ f (lineAt doc l))) := by
  intro i
  induction i with
  | zero =>
    intro l m
    simp only [scanUp, List.not_mem_nil, false_iff]
    rintro ⟨h1, h2, -, -⟩
    omega
  | succ i ih =>
    intro l m
    rw [scanUp]
    by_cases hp : p (lineAt doc (i + 1)) = true
    · rw [if_pos hp, List.mem_append]
      constructor
      · intro h
        rcases h with h | h
        · rcases List.mem_map.mp h with ⟨m', hm', he⟩
          injection he with he1 he2
          subst he1
          subst he2
          refine ⟨by omega, le_refl _, fun j hj1 hj2 => ?_, hm'⟩
          have hj : j = i + 1 := by omega
          rw [hj]
          exact hp
        · obtain ⟨h1, h2, h3, h4⟩ := (ih l m).mp h
          refine ⟨h1, by omega, fun j hj1 hj2 => ?_, h4⟩
          rcases Nat.eq_or_lt_of_le hj2 with he | hlt
          · rw [he]
            exact hp
          · exact h3 j hj1 (by omega)
      · rintro ⟨h1, h2, h3, h4⟩
        rcases Nat.eq_or_lt_of_le h2 with he | hlt
        · refine Or.inl (List.mem_map.mpr ⟨m, ?_, ?_⟩)
          · rw [← he]; exact h4
          · rw [← he]
        · exact Or.inr ((ih l m).mpr
            ⟨h1, by omega, fun j hj1 hj2 => h3 j hj1 (by omega), h4⟩)
    · rw [if_neg hp]
      simp only [List.not_mem_nil, false_iff]
      rintro ⟨h1, h2, h3, -⟩
      exact hp (h3 (i + 1) h2 (le_refl _))

/-- C4: for an anchor inside the document whose line matches the block prefix,
the block scan collects a pair (l, m) exactly when every line between the
anchor and l (inclusive) matches the prefix and m is a match of line l — a
maximal contiguous prefix run; and on the scenario C document the scan from the
middle table row collects precisely the three table rows' matches (forward rows
2,3 then backward row 1) although the line after the blank line also matches. -/
theorem c4_block_scan_window :
    (∀ (p : Str → Bool) (f : Str → List LinkMatch) (doc : List Str) (anchor l : Nat)
        (m : LinkMatch), 1 ≤ anchor → anchor ≤ doc.length →
        p (lineAt doc anchor) = true →
      ((l, m) ∈ blockCollect p f doc anchor ↔
        (1 ≤ l ∧ l ≤ doc.length ∧
          (∀ j, min anchor l ≤ j → j ≤ max anchor l → p (lineAt doc j) = true) ∧
          m ∈ f (lineAt doc l)))) ∧
    (blockCollect startRegTable
        (fun l => matchLineWithInternalLink l (strL "img.png") 300 true) docC 2).map
      Prod.fst = [2, 3, 1] ∧
    (matchLineWithInternalLink (lineAt docC 5) (strL "img.png") 300 true).length = 1 := by
  refine ⟨?_, by decide, by decide⟩
  intro p f doc anchor l m h1a h2a hpa
  rw [blockCollect, List.mem_append, scanDown,
    scanDownAux_mem p f doc _ anchor l m (le_refl _), scanUp_mem p f doc (anchor - 1) l m]
  constructor
  · rintro (⟨hd1, hd2, hd3, hd4⟩ | ⟨hu1, hu2, hu3, hu4⟩)
    · exact ⟨by omega, hd2, fun j hj1 hj2 => hd3 j (by omega) (by omega), hd4⟩
    · refine ⟨hu1, by omega, fun j hj1 hj2 => ?_, hu4⟩
      by_cases hja : j = anchor
      · rw [hja]
        exact hpa
      · exact hu3 j (by omega) (by omega)
  · rintro ⟨h1, h2, h3, h4⟩
    by_cases hla : anchor ≤ l
    · exact Or.inl ⟨hla, h2, fun j hj1 hj2 => h3 j (by omega) (by omega), h4⟩
    · exact Or.inr ⟨h1, by omega, fun j hj1 hj2 => h3 j (by omega) (by omega), h4⟩

/-- Witness for C4's window characterization at the scenario C document,
anchor row 2, collected row 3. -/
theorem c4_block_scan_window_witness :
    1 ≤ 2 ∧ 2 ≤ docC.length ∧ startRegTable (lineAt docC 2) = true ∧
    (((3, ⟨strL "![[img.png|100]]", strL "![[img.png\\|300]]", 2, 18⟩) ∈
        blockCollect startRegTable
          (fun l => matchLineWithInternalLink l (strL "img.png") 300 true) docC 2) ↔
      (1 ≤ 3 ∧ 3 ≤ docC.length ∧
        (∀ j, min 2 3 ≤ j → j ≤ max 2 3 → startRegTable (lineAt docC j) = true) ∧
        (⟨strL "![[img.png|100]]", strL "![[img.png\\|300]]", 2, 18⟩ : LinkMatch) ∈
          matchLineWithInternalLink (lineAt docC 3) (strL "img.png") 300 true)) :=
  ⟨by decide, by decide, by decide,
    c4_block_scan_window.1 startRegTable _ docC 2 3 _ (by decide) (by decide) (by decide)⟩

/-- C5 (amended): with more than one occurrence collected in the searched
block scope, the resize link updater applies no rewrite and surfaces exactly
one multi-match notice; the context-menu path (`findSingleImageMatch`) with no
usable position hint falls back to the first match in document order without
any ambiguity warning. -/
theorem c5_ambiguous_degraded_mode (doc : List Str) (anchor : Nat)
    (inTable inCallout : Bool) (imageName : Str) (newWidth : Nat)
    (hblk : inTable = true ∨ inCallout = true)
    (hmulti : 2 ≤ (blockCollect (if inTable then startRegTable else startRegCallout)
      (fun l => matchLineWithInternalLink l imageName newWidth inTable) doc anchor).length) :
    updateInternalLinkOutcome doc anchor inTable inCallout imageName newWidth =
      UpdateOutcome.multiMatchNotice ∧
    (∀ (m0 m1 : ImageMatch) (rest : List ImageMatch),
      findSingleImageMatch (m0 :: m1 :: rest) none = some m0) := by
  refine ⟨?_, fun m0 m1 rest => rfl⟩
  unfold updateInternalLinkOutcome
  have hcond : ¬ ((!inCallout && !inTable) = true) := by
    rcases hblk with h | h <;> rw [h] <;> simp
  rw [if_neg hcond]
  rcases hcol : blockCollect (if inTable then startRegTable else startRegCallout)
      (fun l => matchLineWithInternalLink l imageName newWidth inTable) doc anchor with
    _ | ⟨a, _ | ⟨b, t⟩⟩
  · rw [hcol] at hmulti
    simp at hmulti
  · rw [hcol] at hmulti
    simp at hmulti
  · rfl

/-- C5 as frozen is false: on a callout line embedding `img.png` twice, the
block scan finds two occurrences and the update aborts with the multi-match
notice instead of applying the rewrite to the first occurrence. -/
theorem c5_counterexample_abort_on_ambiguity :
    (blockCollect startRegCallout
        (fun l => matchLineWithInternalLink l (strL "img.png") 200 false) docE 1).length = 2 ∧
    updateInternalLinkOutcome docE 1 false true (strL "img.png") 200 =
      UpdateOutcome.multiMatchNotice :=
  ⟨by decide, by decide⟩

/-- Witness for C5 on the two-occurrence callout document. -/
theorem c5_ambiguous_degraded_mode_witness :
    (false = true ∨ true = true) ∧
    2 ≤ (blockCollect (if false then startRegTable else startRegCallout)
      (fun l => matchLineWithInternalLink l (strL "img.png") 200 false) docE 1).length ∧
    (updateInternalLinkOutcome docE 1 false true (strL "img.png") 200 =
      UpdateOutcome.multiMatchNotice ∧
     ∀ (m0 m1 : ImageMatch) (rest : List ImageMatch),
       findSingleImageMatch (m0 :: m1 :: rest) none = some m0) :=
  ⟨Or.inr rfl, by decide,
    c5_ambiguous_degraded_mode docE 1 false true (strL "img.png") 200 (Or.inr rfl) (by decide)⟩
